import Mathlib

/-!
Verification of the rustis in-memory key-value server core against its
specification.  The Rust sources are shallowly embedded: byte buffers become
lists of naturals (each byte a value below 256), the RESP frame parser and
serializer become pure functions, the sharded store becomes an association
list, and the per-connection response writer becomes an explicit state
machine.  Machine-integer casts are made explicit (an i64 as usize cast is a
mod-2^64 reduction); a Rust slice-index panic is modelled by the
distinguished error value indexOutOfBounds.
-/

namespace Rustis

/-- Raw byte strings (Rust Bytes / Vec of u8): lists of naturals, each
entry intended to lie below 256. -/
abbrev ByteStr := List Nat

/-- ASCII bytes of a Lean string; used only for ASCII literals appearing in
the Rust sources, for which UTF-8 coincides with the character codes. -/
def strBytes (s : String) : ByteStr := s.toList.map Char.toNat

/-- Rust memchr memmem find of the two-byte needle CRLF: index of the first
occurrence of 13 followed by 10 (parser.rs find_crlf). -/
def findCrlf : List Nat → Option Nat
  | [] => none
  | b :: rest =>
    if b = 13 ∧ rest.head? = some 10 then some 0
    else (findCrlf rest).map (· + 1)

/-- ASCII decimal digit test. -/
def isDigit (b : Nat) : Bool := decide (48 ≤ b ∧ b ≤ 57)

/-- Rust u8 is_ascii_alphabetic. -/
def isAsciiAlphabetic (b : Nat) : Bool :=
  decide ((65 ≤ b ∧ b ≤ 90) ∨ (97 ≤ b ∧ b ≤ 122))

/-- Rust u8 is_ascii_whitespace: space, tab, line feed, form feed,
carriage return. -/
def isAsciiWhitespace (b : Nat) : Bool :=
  decide (b = 32 ∨ b = 9 ∨ b = 10 ∨ b = 12 ∨ b = 13)

/-- Numeric value of a list of ASCII digit bytes, most significant first. -/
def digitsVal (ds : List Nat) : Nat :=
  ds.foldl (fun acc b => acc * 10 + (b - 48)) 0

/-- ASCII decimal digits of a natural number (Rust usize to_string). -/
def natDecimal (n : Nat) : List Nat :=
  if h : n < 10 then [48 + n]
  else natDecimal (n / 10) ++ [48 + n % 10]
termination_by n
decreasing_by
  exact Nat.div_lt_self (by omega) (by omega)

/-- ASCII decimal representation of an integer (Rust i64 to_string):
an optional leading minus sign and the decimal digits. -/
def intDecimal (i : Int) : List Nat :=
  if i < 0 then 45 :: natDecimal i.natAbs else natDecimal i.toNat

/-- Smallest i64 value. -/
def i64Min : Int := -(2 ^ 63)

/-- Largest i64 value. -/
def i64Max : Int := 2 ^ 63 - 1

/-- Rust str parse into i64: an optional single plus or minus sign followed
by at least one ASCII digit, with the resulting value required to fit in an
i64; anything else is a parse error (none). -/
def intFromDecimalBytes (bs : List Nat) : Option Int :=
  let sd : Int × List Nat :=
    match bs with
    | 43 :: rest => (1, rest)
    | 45 :: rest => (-1, rest)
    | _ => (1, bs)
  if sd.2 = [] then none
  else if ¬ sd.2.all isDigit then none
  else
    let v : Int := sd.1 * (digitsVal sd.2 : Nat)
    if v < i64Min ∨ i64Max < v then none else some v

/-- One step of UTF-8 validation (RFC 3629): exp holds the admissible
ranges for the continuation bytes still expected in the current multi-byte
sequence, bs the remaining input. -/
def utf8ValidGo : List (Nat × Nat) → List Nat → Bool
  | [], [] => true
  | _ :: _, [] => false
  | [], b :: rest =>
    if b < 0x80 then utf8ValidGo [] rest
    else if 0xC2 ≤ b ∧ b ≤ 0xDF then utf8ValidGo [(0x80, 0xBF)] rest
    else if b = 0xE0 then utf8ValidGo [(0xA0, 0xBF), (0x80, 0xBF)] rest
    else if (0xE1 ≤ b ∧ b ≤ 0xEC) ∨ b = 0xEE ∨ b = 0xEF then
      utf8ValidGo [(0x80, 0xBF), (0x80, 0xBF)] rest
    else if b = 0xED then utf8ValidGo [(0x80, 0x9F), (0x80, 0xBF)] rest
    else if b = 0xF0 then
      utf8ValidGo [(0x90, 0xBF), (0x80, 0xBF), (0x80, 0xBF)] rest
    else if 0xF1 ≤ b ∧ b ≤ 0xF3 then
      utf8ValidGo [(0x80, 0xBF), (0x80, 0xBF), (0x80, 0xBF)] rest
    else if b = 0xF4 then
      utf8ValidGo [(0x80, 0x8F), (0x80, 0xBF), (0x80, 0xBF)] rest
    else false
  | (lo, hi) :: exp, b :: rest =>
    decide (lo ≤ b ∧ b ≤ hi) && utf8ValidGo exp rest

/-- UTF-8 validity of a byte sequence (RFC 3629 ranges), modelling Rust
std str from_utf8 succeeding: a leading byte opens a sequence whose
continuation bytes must fall in the RFC ranges. -/
def utf8Valid (bs : List Nat) : Bool := utf8ValidGo [] bs

/-- Rust to_ascii_lowercase on one byte. -/
def lowerByte (b : Nat) : Nat := if 65 ≤ b ∧ b ≤ 90 then b + 32 else b

/-- Rust slice eq_ignore_ascii_case. -/
def eqIgnoreAsciiCase (a b : ByteStr) : Bool :=
  a.map lowerByte == b.map lowerByte

/-- RESP value (message.rs ResponseValue): the tagged variant used both for
requests and replies. -/
inductive ResponseValue where
  | simpleString : ByteStr → ResponseValue
  | error : ByteStr → ResponseValue
  | integer : Int → ResponseValue
  | bulkString : Option ByteStr → ResponseValue
  | array : Option (List ResponseValue) → ResponseValue

mutual

/-- RESP wire serialization (message.rs ResponseValue::serialize), written
as the byte list appended for one value. -/
def serializeRV : ResponseValue → List Nat
  | .simpleString s => 43 :: (s ++ [13, 10])
  | .error s => 45 :: (s ++ [13, 10])
  | .integer i => 58 :: (intDecimal i ++ [13, 10])
  | .bulkString none => [36, 45, 49, 13, 10]
  | .bulkString (some d) =>
    36 :: (natDecimal d.length ++ [13, 10] ++ d ++ [13, 10])
  | .array none => [42, 45, 49, 13, 10]
  | .array (some items) =>
    42 :: (natDecimal items.length ++ [13, 10] ++ serializeList items)

/-- Serialization of a sequence of RESP values back to back (the loop in
the Array branch of serialize). -/
def serializeList : List ResponseValue → List Nat
  | [] => []
  | v :: vs => serializeRV v ++ serializeList vs

end

mutual

/-- Well-formed RESP value, the data model of the spec: simple-string and
error payloads are bytes free of CR and LF, integers fit in an i64, and
bulk payloads are arbitrary bytes; bulk and array lengths fit in an i64
(a Rust vector length always does). -/
def wellFormedRV : ResponseValue → Bool
  | .simpleString s => s.all (fun b => decide (b < 256 ∧ b ≠ 13 ∧ b ≠ 10))
  | .error s => s.all (fun b => decide (b < 256 ∧ b ≠ 13 ∧ b ≠ 10))
  | .integer i => decide (i64Min ≤ i ∧ i ≤ i64Max)
  | .bulkString none => true
  | .bulkString (some d) =>
    d.all (fun b => decide (b < 256)) && decide ((d.length : Int) ≤ i64Max)
  | .array none => true
  | .array (some items) =>
    decide ((items.length : Int) ≤ i64Max) && wellFormedList items

/-- Well-formedness of every element of a list of values. -/
def wellFormedList : List ResponseValue → Bool
  | [] => true
  | v :: vs => wellFormedRV v && wellFormedList vs

end

/-- Parse errors (parser.rs BufParseError).  The payloads of the two
conversion errors (a ParseIntError and a Utf8Error) are not modelled.  The
extra value indexOutOfBounds is not a Rust variant: it models the panic of
an out-of-range slice or index in the commit phase, so that panic freedom
can be stated. -/
inductive BufParseError where
  | Incomplete
  | UnexpectedEOF (expected : String)
  | InvalidFirstByte (b : Option Nat)
  | UnexpectedByte (expected : Nat) (found : Option Nat)
  | StringConversionError
  | ByteConversionError
  | indexOutOfBounds
deriving DecidableEq

/-- Rust std str from_utf8 followed by parse into i64, with the two
failures mapped to the corresponding BufParseError variants (the From
impls in parser.rs). -/
def parseI64 (bs : List Nat) : Except BufParseError Int :=
  if utf8Valid bs then
    match intFromDecimalBytes bs with
    | some v => .ok v
    | none => .error .StringConversionError
  else .error .ByteConversionError

/-- Read-only size pass for a bulk string (parser.rs
peek_bulk_string_size).  The slice data[1..header_end] is taken after the
first byte, which the caller has checked to be the dollar sign, so
header_end is at least 1 and the slice is in range. -/
def peekBulkStringSize (data : List Nat) : Except BufParseError Nat :=
  match findCrlf data with
  | none => .error .Incomplete
  | some he =>
    match parseI64 ((data.drop 1).take (he - 1)) with
    | .error e => .error e
    | .ok integerLen =>
      if integerLen < 0 then .ok (he + 2)
      else .ok (he + 2 + integerLen.toNat + 2)

mutual

/-- Read-only pass computing the byte length of the next complete frame
(parser.rs peek_bytes_needed); the array case inlines peek_array_size. -/
def peekBytesNeeded (data : List Nat) : Except BufParseError Nat :=
  match data with
  | [] => .error .Incomplete
  | b :: rest =>
    if b = 43 ∨ b = 45 ∨ b = 58 then
      match findCrlf (b :: rest) with
      | none => .error .Incomplete
      | some he => .ok (he + 2)
    else if b = 36 then peekBulkStringSize (b :: rest)
    else if b = 42 then
      match findCrlf (b :: rest) with
      | none => .error .Incomplete
      | some he =>
        match parseI64 (((b :: rest).drop 1).take (he - 1)) with
        | .error e => .error e
        | .ok length =>
          if length < 0 then .ok (he + 2)
          else peekElems length.toNat (b :: rest) (he + 2)
    else if isAsciiAlphabetic b then
      match findCrlf (b :: rest) with
      | none => .error .Incomplete
      | some he => .ok (he + 2)
    else .error (.InvalidFirstByte (some b))
termination_by (data.length, 0)
decreasing_by
  apply Prod.Lex.left
  simp only [List.length_cons]
  omega

/-- The element loop of peek_array_size: count elements remain, the next
starts at the given offset into data; returns the final offset. -/
def peekElems (count : Nat) (data : List Nat) (offset : Nat) :
    Except BufParseError Nat :=
  match count with
  | 0 => .ok offset
  | c + 1 =>
    if data.length ≤ offset then .error .Incomplete
    else
      match peekBytesNeeded (data.drop offset) with
      | .error e => .error e
      | .ok size => peekElems c data (offset + size)
termination_by (data.length - offset, count)
decreasing_by
  · simp only [List.length_drop]
    exact Prod.Lex.right _ (by omega)
  · rcases Nat.lt_or_ge (data.length - (offset + size)) (data.length - offset)
      with h | h
    · exact Prod.Lex.left _ _ h
    · have h2 : data.length - (offset + size) = data.length - offset := by omega
      rw [h2]
      exact Prod.Lex.right _ (by omega)

end

/-- Guarded slice: Rust Bytes slice or Rust range indexing of a byte
slice, which panics when the range is invalid; none models the panic. -/
def listSlice (l : List Nat) (a b : Nat) : Option (List Nat) :=
  if a ≤ b ∧ b ≤ l.length then some ((l.drop a).take (b - a)) else none

/-- Commit-phase parse of a simple string at offset
(parser.rs parse_simple_string_frame). -/
def parseSimpleStringFrame (frame : List Nat) (offset : Nat) :
    Except BufParseError (ResponseValue × Nat) :=
  match findCrlf (frame.drop offset) with
  | none => .error .Incomplete
  | some he =>
    match listSlice frame (offset + 1) (offset + he) with
    | none => .error .indexOutOfBounds
    | some s => .ok (.simpleString s, he + 2)

/-- Commit-phase parse of an error frame (parser.rs
parse_simple_error_frame). -/
def parseSimpleErrorFrame (frame : List Nat) (offset : Nat) :
    Except BufParseError (ResponseValue × Nat) :=
  match findCrlf (frame.drop offset) with
  | none => .error .Incomplete
  | some he =>
    match listSlice frame (offset + 1) (offset + he) with
    | none => .error .indexOutOfBounds
    | some s => .ok (.error s, he + 2)

/-- Commit-phase parse of an integer frame (parser.rs
parse_integer_frame). -/
def parseIntegerFrame (frame : List Nat) (offset : Nat) :
    Except BufParseError (ResponseValue × Nat) :=
  let data := frame.drop offset
  match findCrlf data with
  | none => .error .Incomplete
  | some he =>
    match listSlice data 1 he with
    | none => .error .indexOutOfBounds
    | some valSlice =>
      match parseI64 valSlice with
      | .error e => .error e
      | .ok n => .ok (.integer n, he + 2)

/-- Commit-phase parse of a bulk string frame (parser.rs
parse_bulk_string_frame), including the literal check of the trailing CRLF
by direct indexing; an out-of-range index is the modelled panic.  When the
first trailer byte is 13 but the second is not 10, the reported found byte
is frame[data_end] exactly as in the source. -/
def parseBulkStringFrame (frame : List Nat) (offset : Nat) :
    Except BufParseError (ResponseValue × Nat) :=
  let data := frame.drop offset
  match findCrlf data with
  | none => .error .Incomplete
  | some he =>
    match listSlice data 1 he with
    | none => .error .indexOutOfBounds
    | some lenSlice =>
      match parseI64 lenSlice with
      | .error e => .error e
      | .ok integerLen =>
        if integerLen < 0 then .ok (.bulkString none, he + 2)
        else
          let len := integerLen.toNat
          let dataStart := offset + he + 2
          let dataEnd := dataStart + len
          match frame[dataEnd]? with
          | none => .error .indexOutOfBounds
          | some b1 =>
            if b1 ≠ 13 then .error (.UnexpectedByte 13 (some b1))
            else
              match frame[dataEnd + 1]? with
              | none => .error .indexOutOfBounds
              | some b2 =>
                if b2 ≠ 10 then .error (.UnexpectedByte 13 (some b1))
                else
                  match listSlice frame dataStart dataEnd with
                  | none => .error .indexOutOfBounds
                  | some s => .ok (.bulkString (some s), he + 2 + len + 2)

/-- Word splitting of an inline command line (the boundary loop of
parser.rs parse_inline_frame).  The source materializes each word as a
slice frame[offset+start..offset+i] whose bounds lie inside the line; the
model builds the same words directly from the line bytes. -/
def splitWordsGo (acc : List Nat) : List Nat → List (List Nat)
  | [] => if acc = [] then [] else [acc.reverse]
  | b :: rest =>
    if isAsciiWhitespace b then
      if acc = [] then splitWordsGo [] rest
      else acc.reverse :: splitWordsGo [] rest
    else splitWordsGo (b :: acc) rest

/-- Words of a line, in order. -/
def splitWords (l : List Nat) : List (List Nat) := splitWordsGo [] l

/-- Commit-phase parse of an inline command (parser.rs
parse_inline_frame): the line up to CRLF is split into
whitespace-separated words, each returned as a bulk string inside an
array. -/
def parseInlineFrame (frame : List Nat) (offset : Nat) :
    Except BufParseError (ResponseValue × Nat) :=
  let data := frame.drop offset
  match findCrlf data with
  | none => .error .Incomplete
  | some he =>
    let items := (splitWords (data.take he)).map
      (fun w => ResponseValue.bulkString (some w))
    .ok (.array (some items), he + 2)

mutual

/-- Commit-phase parse of one value at an absolute offset into the
detached frame (parser.rs parse_value_from_frame); the array case inlines
parse_array_frame.  The leading guard models the panic of frame[offset..]
when offset exceeds the frame length. -/
def parseValueFrom (frame : List Nat) (offset : Nat) :
    Except BufParseError (ResponseValue × Nat) :=
  if frame.length < offset then .error .indexOutOfBounds
  else
    match hdata : frame.drop offset with
    | [] => .error .Incomplete
    | b :: _ =>
      if b = 43 then parseSimpleStringFrame frame offset
      else if b = 45 then parseSimpleErrorFrame frame offset
      else if b = 58 then parseIntegerFrame frame offset
      else if b = 36 then parseBulkStringFrame frame offset
      else if b = 42 then
        match findCrlf (frame.drop offset) with
        | none => .error .Incomplete
        | some he =>
          match parseI64 (((frame.drop offset).drop 1).take (he - 1)) with
          | .error e => .error e
          | .ok length =>
            if length < 0 then .ok (.array none, he + 2)
            else
              match parseElemsFrom frame (offset + he + 2) length.toNat with
              | .error e => .error e
              | .ok (items, consumed) =>
                .ok (.array (some items), he + 2 + consumed)
      else if isAsciiAlphabetic b then parseInlineFrame frame offset
      else .error (.InvalidFirstByte (some b))
termination_by (frame.length - offset, 0)
decreasing_by
  apply Prod.Lex.left
  have hlen : offset < frame.length := by
    by_contra hc
    rw [List.drop_eq_nil_of_le (by omega)] at hdata
    exact absurd hdata.symm (List.cons_ne_nil _ _)
  omega

/-- The element loop of parse_array_frame: parse count values starting at
offset, returning them with the total number of bytes consumed. -/
def parseElemsFrom (frame : List Nat) (offset : Nat) (count : Nat) :
    Except BufParseError (List ResponseValue × Nat) :=
  match count with
  | 0 => .ok ([], 0)
  | c + 1 =>
    match parseValueFrom frame offset with
    | .error e => .error e
    | .ok (v, consumed) =>
      match parseElemsFrom frame (offset + consumed) c with
      | .error e => .error e
      | .ok (vs, rest) => .ok (v :: vs, consumed + rest)
termination_by (frame.length - offset, count + 1)
decreasing_by
  · simp_wf
    exact Prod.Lex.right _ (by omega)
  · simp_wf
    rcases Nat.lt_or_ge (frame.length - (offset + consumed))
      (frame.length - offset) with h | h
    · exact Prod.Lex.left _ _ h
    · have h2 : frame.length - (offset + consumed) = frame.length - offset := by
        omega
      rw [h2]
      exact Prod.Lex.right _ (by omega)

end

/-- Parse of a complete detached frame (parser.rs parse_frame); the debug
assertion on the consumed length is not modelled. -/
def parseFrame (frame : List Nat) : Except BufParseError ResponseValue :=
  match parseValueFrom frame 0 with
  | .error e => .error e
  | .ok (v, _) => .ok v

/-- The public parse entry point (parser.rs parse).  The result is paired
with the buffer as left after the call: unchanged when the read-only peek
pass fails or the buffer is shorter than the peeked frame length, and with
the frame split off the head otherwise, whether or not the commit re-parse
succeeds. -/
def parse (buffer : List Nat) :
    Except BufParseError ResponseValue × List Nat :=
  match peekBytesNeeded buffer with
  | .error e => (.error e, buffer)
  | .ok n =>
    if buffer.length < n then (.error .Incomplete, buffer)
    else
      match parseFrame (buffer.take n) with
      | .error e => (.error e, buffer.drop n)
      | .ok v => (.ok v, buffer.drop n)

/-! Typed value store (kv.rs).  The HashMap becomes an association list
with at most one entry per key; the HashSet inside a set value becomes a
duplicate-free list.  kv.rs declares String keys while its callers and
tests pass byte strings; following the data model (keys are raw bytes
compared bytewise) the embedding uses byte-string keys.  Lock poisoning is
a concurrency artefact outside the sequential model, so the PoisonedLock
error is never produced here. -/

/-- Store errors (kv.rs DatabaseError). -/
inductive DatabaseError where
  | poisonedLock
  | wrongType
deriving DecidableEq

/-- Stored value (kv.rs RedisValue): the VecDeque of a list value becomes
a Lean list with head on the left, the HashSet of a set value a
duplicate-free list. -/
inductive RedisValue where
  | string : ByteStr → RedisValue
  | list : List ByteStr → RedisValue
  | set : List ByteStr → RedisValue
deriving DecidableEq

/-- The key-value map. -/
abbrev Db := List (ByteStr × RedisValue)

/-- HashMap get. -/
def dbLookup (db : Db) (k : ByteStr) : Option RedisValue :=
  match db with
  | [] => none
  | (k0, v0) :: rest => if k0 = k then some v0 else dbLookup rest k

/-- HashMap insert: replace the entry if the key is present, otherwise add
it. -/
def dbInsert (db : Db) (k : ByteStr) (v : RedisValue) : Db :=
  match db with
  | [] => [(k, v)]
  | (k0, v0) :: rest =>
    if k0 = k then (k, v) :: rest else (k0, v0) :: dbInsert rest k v

/-- HashMap remove. -/
def dbRemove (db : Db) (k : ByteStr) : Db :=
  db.filter (fun p => p.1 ≠ k)

/-- Rust i64 as usize cast: two's-complement reinterpretation, a
reduction mod 2^64. -/
def usizeOfI64 (c : Int) : Nat := (c % (2 ^ 64 : Int)).toNat

/-- Range normalization for lrange (kv.rs resolve_range): negative
indices are shifted by the length, start is clamped to [0, len] and stop
to [0, len-1]; an empty range is signalled by the sentinel pair (0, 0).
Rust i64 clamp panics when len = 0 (its bounds are then 0 and -1); the
only caller guards len > 0, and the model totalizes that unreachable case
as clamping to 0. -/
def resolveRange (start stop : Int) (len : Nat) : Nat × Nat :=
  let l : Int := (len : Int)
  let start2 := if start < 0 then l + start else start
  let stop2 := if stop < 0 then l + stop else stop
  let start3 := max 0 (min start2 l)
  let stop3 := max 0 (min stop2 (l - 1))
  if start3 > stop3 ∨ len = 0 then (0, 0)
  else (start3.toNat, stop3.toNat)

/-- kv.rs KvStore set: insert a string value, replacing whatever was
there. -/
def kvSet (db : Db) (key : ByteStr) (value : ByteStr) :
    Except DatabaseError (Unit × Db) :=
  .ok ((), dbInsert db key (.string value))

/-- kv.rs KvStore get. -/
def kvGet (db : Db) (key : ByteStr) :
    Except DatabaseError (Option RedisValue) :=
  .ok (dbLookup db key)

/-- kv.rs KvStore del: remove the key, reporting whether it was
present. -/
def kvDel (db : Db) (key : ByteStr) :
    Except DatabaseError (Bool × Db) :=
  .ok ((dbLookup db key).isSome, dbRemove db key)

/-- kv.rs KvStore lpush: entry or_insert an empty list, then push each
value to the front; a non-list entry is a WrongType error (the entry API
means a missing key gains the empty list before the type check, so a
zero-value push on a missing key leaves an empty list behind). -/
def kvLpush (db : Db) (key : ByteStr) (values : List ByteStr) :
    Except DatabaseError (Int × Db) :=
  match dbLookup db key with
  | none =>
    let l := values.foldl (fun acc v => v :: acc) []
    .ok ((l.length : Int), dbInsert db key (.list l))
  | some (.list l0) =>
    let l := values.foldl (fun acc v => v :: acc) l0
    .ok ((l.length : Int), dbInsert db key (.list l))
  | some _ => .error .wrongType

/-- kv.rs KvStore rpush: as lpush but pushing to the back. -/
def kvRpush (db : Db) (key : ByteStr) (values : List ByteStr) :
    Except DatabaseError (Int × Db) :=
  match dbLookup db key with
  | none =>
    let l := values.foldl (fun acc v => acc ++ [v]) []
    .ok ((l.length : Int), dbInsert db key (.list l))
  | some (.list l0) =>
    let l := values.foldl (fun acc v => acc ++ [v]) l0
    .ok ((l.length : Int), dbInsert db key (.list l))
  | some _ => .error .wrongType

/-- kv.rs KvStore lpop: drain min(len, count as usize) elements from the
front; when the remaining list is empty the key is removed. -/
def kvLpop (db : Db) (key : ByteStr) (count : Int) :
    Except DatabaseError (List ByteStr × Db) :=
  match dbLookup db key with
  | some (.list l) =>
    let numPop := min l.length (usizeOfI64 count)
    let popped := l.take numPop
    let rest := l.drop numPop
    .ok (popped, if rest.isEmpty then dbRemove db key
                 else dbInsert db key (.list rest))
  | some _ => .error .wrongType
  | none => .ok ([], db)

/-- kv.rs KvStore rpop: drain min(len, count as usize) elements from the
back, returned in their stored order; same removal rule. -/
def kvRpop (db : Db) (key : ByteStr) (count : Int) :
    Except DatabaseError (List ByteStr × Db) :=
  match dbLookup db key with
  | some (.list l) =>
    let numPop := min l.length (usizeOfI64 count)
    let popped := l.drop (l.length - numPop)
    let rest := l.take (l.length - numPop)
    .ok (popped, if rest.isEmpty then dbRemove db key
                 else dbInsert db key (.list rest))
  | some _ => .error .wrongType
  | none => .ok ([], db)

/-- kv.rs KvStore lrange: resolve the range, then copy the guarded
slice.  The guard start_idx > stop_idx never fires (resolve_range already
collapsed such ranges to the sentinel (0, 0)), so the sentinel is read
back as the real one-element range [0, 0]. -/
def kvLrange (db : Db) (key : ByteStr) (start stop : Int) :
    Except DatabaseError (List ByteStr) :=
  match dbLookup db key with
  | some (.list l) =>
    if l.length = 0 then .ok []
    else
      let r := resolveRange start stop l.length
      if r.1 > r.2 ∧ l.length > 0 ∧ ¬(r.1 = 0 ∧ r.2 = 0) then .ok []
      else .ok ((l.drop r.1).take ((r.2 - r.1) + 1))
  | some _ => .error .wrongType
  | none => .ok []

/-- HashSet insert: add the value only when it is not yet a member. -/
def setInsert (s : List ByteStr) (v : ByteStr) : List ByteStr :=
  if v ∈ s then s else s ++ [v]

/-- kv.rs KvStore sadd: entry or_insert an empty set, insert each value,
and return the cardinality of the set after the insertions (not the
number of newly inserted members). -/
def kvSadd (db : Db) (key : ByteStr) (values : List ByteStr) :
    Except DatabaseError (Int × Db) :=
  match dbLookup db key with
  | none =>
    let s := values.foldl setInsert []
    .ok ((s.length : Int), dbInsert db key (.set s))
  | some (.set s0) =>
    let s := values.foldl setInsert s0
    .ok ((s.length : Int), dbInsert db key (.set s))
  | some _ => .error .wrongType

/-- kv.rs KvStore spop: remove min(len, count as usize) members, taking
the iteration order of the HashSet (unspecified in the source) to be the
list order of the model; same removal rule as the list pops. -/
def kvSpop (db : Db) (key : ByteStr) (count : Int) :
    Except DatabaseError (List ByteStr × Db) :=
  match dbLookup db key with
  | some (.set s) =>
    let numPop := min s.length (usizeOfI64 count)
    let popped := s.take numPop
    let rest := s.drop numPop
    .ok (popped, if rest.isEmpty then dbRemove db key
                 else dbInsert db key (.set rest))
  | some _ => .error .wrongType
  | none => .ok ([], db)

/-- kv.rs KvStore smembers. -/
def kvSmembers (db : Db) (key : ByteStr) :
    Except DatabaseError (List ByteStr) :=
  match dbLookup db key with
  | some (.set s) => .ok s
  | some _ => .error .wrongType
  | none => .ok []

/-! Command executor (handler.rs CommandHandler).  The store the handler
owns is passed and returned explicitly; compact() is the identity in the
source and is dropped. -/

/-- Debug rendering of DatabaseError, as interpolated by the handler
error strings. -/
def dbgDatabaseError : DatabaseError → String
  | .poisonedLock => "PoisonedLock"
  | .wrongType => "WrongType"

/-- handler.rs parse_int: utf8-decode then parse into i64, with the three
error replies of the source. -/
def parseIntArg (value : ResponseValue) : Except ByteStr Int :=
  match value with
  | .bulkString (some bytes) =>
    if utf8Valid bytes then
      match intFromDecimalBytes bytes with
      | some n => .ok n
      | none => .error (strBytes "ERR value is not an integer or out of range")
    else .error (strBytes "ERR value is not valid utf8")
  | _ => .error (strBytes "ERR protocol error: expected bulk string")

/-- Rust String from_utf8_lossy followed by parse into i64, as used for
the lpop and rpop count argument: the lossy pass only rewrites invalid
sequences into the replacement character, which the integer grammar then
rejects, so parsing succeeds exactly on valid in-range decimal byte
strings. -/
def lossyParseI64 (bs : List Nat) : Option Int := intFromDecimalBytes bs

/-- Debug kind of the ParseIntError produced when the lpop or rpop count
fails to parse, mirroring the kinds of the Rust from_str implementation
(Empty, InvalidDigit, PosOverflow, NegOverflow) on the lossy-decoded
string. -/
def parseIntErrorKind (bs : List Nat) : String :=
  if bs = [] then "Empty"
  else
    let sd : List Nat :=
      match bs with
      | 43 :: rest => rest
      | 45 :: rest => rest
      | _ => bs
    if sd = [] ∨ ¬ sd.all isDigit then "InvalidDigit"
    else
      match bs with
      | 45 :: _ => "NegOverflow"
      | _ => "PosOverflow"

/-- The reply text format!("ERR \x7b:?\x7d", err) for a count parse
failure. -/
def countParseErrMsg (bs : List Nat) : String :=
  "ERR ParseIntError \x7b kind: " ++ parseIntErrorKind bs ++ " \x7d"

/-- Collect the pushed values of an lpush, rpush or sadd argument tail:
every element must be a non-null bulk string. -/
def collectBulks : List ResponseValue → Option (List ByteStr)
  | [] => some []
  | .bulkString (some b) :: rest => (collectBulks rest).map (b :: ·)
  | _ => none

/-- handler.rs handle_get. -/
def handleGet (db : Db) (args : List ResponseValue) : ResponseValue × Db :=
  if args.length ≠ 1 then
    (.error (strBytes "ERR wrong number of arguments for \x27get\x27 command"), db)
  else
    match args.head? with
    | some (.bulkString (some key)) =>
      match kvGet db key with
      | .ok (some (.string b)) => (.bulkString (some b), db)
      | .ok (some _) =>
        (.error (strBytes
          "WRONGTYPE Operation against a key holding the wrong kind of value"), db)
      | .ok none => (.bulkString none, db)
      | .error _ => (.error (strBytes "internal server error"), db)
    | some _ => (.error (strBytes "ERR key must be bulk string"), db)
    | none => (.error (strBytes "ERR invalid number of arguments"), db)

/-- handler.rs handle_set. -/
def handleSet (db : Db) (args : List ResponseValue) : ResponseValue × Db :=
  if args.length ≠ 2 then
    (.error (strBytes "ERR wrong number of arguments for \x27set\x27 command"), db)
  else
    match args.head? with
    | some (.bulkString (some key)) =>
      match args[1]? with
      | some (ResponseValue.bulkString (some value)) =>
        match kvSet db key value with
        | .ok ((), db2) => (.simpleString (strBytes "OK"), db2)
        | .error _ =>
          (.error (strBytes "internal server error (poisoned lock)"), db)
      | some _ => (.error (strBytes "ERR value must be bulk string"), db)
      | none => (.error (strBytes "ERR invalid number of arguments"), db)
    | some _ => (.error (strBytes "ERR key must be bulk string"), db)
    | none => (.error (strBytes "ERR invalid number of arguments"), db)

/-- handler.rs handle_lpush.  Note the WrongType store error surfaces as
the reply ERR internal db error: WrongType, not as the WRONGTYPE
sentinel. -/
def handleLpush (db : Db) (args : List ResponseValue) : ResponseValue × Db :=
  match args with
  | [] => (.error (strBytes "ERR invalid number of arguments"), db)
  | keyArg :: rest =>
    match keyArg with
    | .bulkString (some key) =>
      match collectBulks rest with
      | none => (.error (strBytes "ERR pushed values must be bulk strings"), db)
      | some values =>
        match kvLpush db key values with
        | .ok (size, db2) => (.integer size, db2)
        | .error e =>
          (.error (strBytes ("ERR internal db error: " ++ dbgDatabaseError e)), db)
    | _ => (.error (strBytes "ERR key must be bulk string"), db)

/-- handler.rs handle_rpush. -/
def handleRpush (db : Db) (args : List ResponseValue) : ResponseValue × Db :=
  match args with
  | [] => (.error (strBytes "ERR invalid number of arguments"), db)
  | keyArg :: rest =>
    match keyArg with
    | .bulkString (some key) =>
      match collectBulks rest with
      | none => (.error (strBytes "ERR pushed values must be bulk strings"), db)
      | some values =>
        match kvRpush db key values with
        | .ok (size, db2) => (.integer size, db2)
        | .error e =>
          (.error (strBytes ("ERR internal db error: " ++ dbgDatabaseError e)), db)
    | _ => (.error (strBytes "ERR key must be bulk string"), db)

/-- Reply shaping shared by handle_lpop and handle_rpop: a single
popped element is replied as one bulk string, anything else as an array
of bulk strings. -/
def popReply (popped : List ByteStr) : ResponseValue :=
  match popped with
  | [x] => .bulkString (some x)
  | _ => .array (some (popped.map (fun b => .bulkString (some b))))

/-- handler.rs handle_lpop: optional count argument parsed lossily with
default 1. -/
def handleLpop (db : Db) (args : List ResponseValue) : ResponseValue × Db :=
  match args with
  | [] => (.error (strBytes "ERR invalid number of arguments"), db)
  | keyArg :: rest =>
    match keyArg with
    | .bulkString (some key) =>
      match rest.head? with
      | some (.bulkString (some cb)) =>
        match lossyParseI64 cb with
        | some count =>
          match kvLpop db key count with
          | .ok (popped, db2) => (popReply popped, db2)
          | .error e =>
            (.error (strBytes ("ERR " ++ dbgDatabaseError e)), db)
        | none => (.error (strBytes (countParseErrMsg cb)), db)
      | some _ => (.error (strBytes "ERR count must be bulk string"), db)
      | none =>
        match kvLpop db key 1 with
        | .ok (popped, db2) => (popReply popped, db2)
        | .error e =>
          (.error (strBytes ("ERR " ++ dbgDatabaseError e)), db)
    | _ => (.error (strBytes "ERR key must be bulk string"), db)

/-- handler.rs handle_rpop. -/
def handleRpop (db : Db) (args : List ResponseValue) : ResponseValue × Db :=
  match args with
  | [] => (.error (strBytes "ERR invalid number of arguments"), db)
  | keyArg :: rest =>
    match keyArg with
    | .bulkString (some key) =>
      match rest.head? with
      | some (.bulkString (some cb)) =>
        match lossyParseI64 cb with
        | some count =>
          match kvRpop db key count with
          | .ok (popped, db2) => (popReply popped, db2)
          | .error e =>
            (.error (strBytes ("ERR " ++ dbgDatabaseError e)), db)
        | none => (.error (strBytes (countParseErrMsg cb)), db)
      | some _ => (.error (strBytes "ERR count must be bulk string"), db)
      | none =>
        match kvRpop db key 1 with
        | .ok (popped, db2) => (popReply popped, db2)
        | .error e =>
          (.error (strBytes ("ERR " ++ dbgDatabaseError e)), db)
    | _ => (.error (strBytes "ERR key must be bulk string"), db)

/-- handler.rs handle_lrange. -/
def handleLrange (db : Db) (args : List ResponseValue) : ResponseValue × Db :=
  match args.head? with
  | some (.bulkString (some key)) =>
    match args[1]? with
    | some v1 =>
      match parseIntArg v1 with
      | .error e => (.error e, db)
      | .ok start =>
        match args[2]? with
        | some v2 =>
          match parseIntArg v2 with
          | .error e => (.error e, db)
          | .ok stop =>
            match kvLrange db key start stop with
            | .ok bytesVec =>
              (.array (some (bytesVec.map (fun b => .bulkString (some b)))), db)
            | .error e =>
              (.error (strBytes ("ERR " ++ dbgDatabaseError e)), db)
        | none => (.error (strBytes "ERR invalid number of arguments"), db)
    | none => (.error (strBytes "ERR invalid number of arguments"), db)
  | some _ => (.error (strBytes "ERR key must be bulk string"), db)
  | none => (.error (strBytes "ERR invalid number of arguments"), db)

/-- handler.rs handle_sadd. -/
def handleSadd (db : Db) (args : List ResponseValue) : ResponseValue × Db :=
  match args with
  | [] => (.error (strBytes "ERR invalid number of arguments"), db)
  | keyArg :: rest =>
    match keyArg with
    | .bulkString (some key) =>
      match collectBulks rest with
      | none => (.error (strBytes "ERR pushed values must be bulk strings"), db)
      | some values =>
        match kvSadd db key values with
        | .ok (size, db2) => (.integer size, db2)
        | .error e =>
          (.error (strBytes ("ERR internal db error: " ++ dbgDatabaseError e)), db)
    | _ => (.error (strBytes "ERR key must be bulk string"), db)

/-- handler.rs handle_spop: the reply is always an array, whatever the
count. -/
def handleSpop (db : Db) (args : List ResponseValue) : ResponseValue × Db :=
  match args.head? with
  | some (.bulkString (some key)) =>
    match args[1]? with
    | some v1 =>
      match parseIntArg v1 with
      | .error e => (.error e, db)
      | .ok count =>
        match kvSpop db key count with
        | .ok (popped, db2) =>
          (.array (some (popped.map (fun b => .bulkString (some b)))), db2)
        | .error e => (.error (strBytes ("ERR: " ++ dbgDatabaseError e)), db)
    | none =>
      match kvSpop db key 1 with
      | .ok (popped, db2) =>
        (.array (some (popped.map (fun b => .bulkString (some b)))), db2)
      | .error e => (.error (strBytes ("ERR: " ++ dbgDatabaseError e)), db)
  | some _ => (.error (strBytes "ERR key must be bulk string"), db)
  | none => (.error (strBytes "ERR invalid number of arguments"), db)

/-- handler.rs handle_smembers. -/
def handleSmembers (db : Db) (args : List ResponseValue) : ResponseValue × Db :=
  match args.head? with
  | some (.bulkString (some key)) =>
    match kvSmembers db key with
    | .ok members =>
      (.array (some (members.map (fun b => .bulkString (some b)))), db)
    | .error e => (.error (strBytes ("ERR " ++ dbgDatabaseError e)), db)
  | some _ => (.error (strBytes "ERR key must be bulk string"), db)
  | none => (.error (strBytes "ERR invalid number of arguments"), db)

/-- handler.rs CommandHandler::process_command: the request must be a
non-empty array whose first element is a non-null bulk string naming the
command, matched case-insensitively. -/
def processCommand (db : Db) (value : ResponseValue) : ResponseValue × Db :=
  match value with
  | .array (some items) =>
    if items.isEmpty then (.error (strBytes "empty request"), db)
    else
      match items with
      | .bulkString (some cmd) :: args =>
        if eqIgnoreAsciiCase cmd (strBytes "PING") then
          (.simpleString (strBytes "PONG"), db)
        else if eqIgnoreAsciiCase cmd (strBytes "CONFIG") then
          (.array none, db)
        else if eqIgnoreAsciiCase cmd (strBytes "GET") then handleGet db args
        else if eqIgnoreAsciiCase cmd (strBytes "SET") then handleSet db args
        else if eqIgnoreAsciiCase cmd (strBytes "LPUSH") then handleLpush db args
        else if eqIgnoreAsciiCase cmd (strBytes "LPOP") then handleLpop db args
        else if eqIgnoreAsciiCase cmd (strBytes "RPUSH") then handleRpush db args
        else if eqIgnoreAsciiCase cmd (strBytes "RPOP") then handleRpop db args
        else if eqIgnoreAsciiCase cmd (strBytes "LRANGE") then handleLrange db args
        else if eqIgnoreAsciiCase cmd (strBytes "SADD") then handleSadd db args
        else if eqIgnoreAsciiCase cmd (strBytes "SPOP") then handleSpop db args
        else if eqIgnoreAsciiCase cmd (strBytes "SMEMBERS") then
          handleSmembers db args
        else (.error (strBytes "invalid command"), db)
      | _ => (.error (strBytes "command must be bulk string"), db)
  | _ => (.error (strBytes "request must be array"), db)

/-! Router (router.rs) and the per-connection response writer
(connection.rs writer_task). -/

/-- Reply message on the writer channel (message.rs ResponseMessage). -/
structure ResponseMessage where
  seq : Nat
  response_value : ResponseValue

/-- router.rs send_error: wraps the text in a ResponseValue::Error and
sends it to the writer channel. -/
def sendErrorMsg (seq : Nat) (msg : String) : ResponseMessage :=
  ⟨seq, .error (strBytes msg)⟩

/-- router.rs send_string: despite its name the source constructs
ResponseValue::Error(msg.into()), exactly as send_error does. -/
def sendStringMsg (seq : Nat) (msg : String) : ResponseMessage :=
  ⟨seq, .error (strBytes msg)⟩

/-- router.rs extract_key: intercept PING and CONFIG (replying directly
through send_string), otherwise take the second array element as the key;
a direct reply is returned on the error side. -/
def extractKey (seq : Nat) (items : List ResponseValue) :
    Except ResponseMessage ByteStr :=
  match items with
  | .bulkString (some cmd) :: args =>
    if eqIgnoreAsciiCase cmd (strBytes "PING") then
      .error (sendStringMsg seq "PONG")
    else if eqIgnoreAsciiCase cmd (strBytes "CONFIG") then
      .error (sendStringMsg seq "")
    else
      match args.head? with
      | some (.bulkString (some key)) => .ok key
      | _ => .error (sendErrorMsg seq "error while parsing key")
  | _ => .error (sendErrorMsg seq "command must be bulk string")

/-- Outcome of routing one parsed frame: either a message sent directly
to the connection writer, or the frame forwarded to the worker with the
given index. -/
inductive RouteResult where
  | direct : ResponseMessage → RouteResult
  | worker : Nat → ResponseValue → RouteResult

/-- router.rs route_message.  The DefaultHasher is abstracted as the
hashFn parameter (its concrete values are process-seeded and
unspecified); the worker index is the hash reduced mod the worker count
exactly as in the source. -/
def routeMessage (hashFn : ByteStr → Nat) (numWorkers : Nat)
    (frame : ResponseValue) (seq : Nat) : RouteResult :=
  match frame with
  | .array (some items) =>
    if items.isEmpty then .direct (sendErrorMsg seq "empty request")
    else
      match extractKey seq items with
      | .error m => .direct m
      | .ok key => .worker (hashFn key % numWorkers) frame
  | _ => .direct (sendErrorMsg seq "Value must be array")

/-- Writer state (connection.rs writer_task): the last emitted sequence
and the pending BTreeMap, modelled as an association list with at most
one entry per key. -/
abbrev WriterPending := List (Nat × ResponseValue)

/-- BTreeMap insert on the pending map. -/
def pendingInsert (m : WriterPending) (k : Nat) (v : ResponseValue) :
    WriterPending :=
  match m with
  | [] => [(k, v)]
  | (k0, v0) :: rest =>
    if k0 = k then (k, v) :: rest else (k0, v0) :: pendingInsert rest k v

/-- The drain loop of writer_task: while the pending map holds the entry
for last + 1, remove it, emit it (the source serializes it into the write
buffer here), and advance; returns the new last sequence, the remaining
pending map and the emitted messages in emission order. -/
def drainReady (last : Nat) (m : WriterPending) :
    Nat × WriterPending × List (Nat × ResponseValue) :=
  match hfind : m.find? (fun p => p.1 == last + 1) with
  | none => (last, m, [])
  | some pv =>
    let m2 := m.filter (fun p => p.1 != last + 1)
    have hlt : m2.length < m.length := by
      apply List.length_filter_lt_length_iff_exists.mpr
      refine ⟨pv, List.mem_of_find?_eq_some hfind, ?_⟩
      have := List.find?_some hfind
      simp_all
    let r := drainReady (last + 1) m2
    (r.1, r.2.1, (last + 1, pv.2) :: r.2.2)
termination_by m.length

/-- One wake-up of writer_task: insert the received batch (the first
recv plus the opportunistically drained extras) into pending, then run
the drain loop; also returns the emitted messages of this round. -/
def processBatch (st : Nat × WriterPending)
    (batch : List (Nat × ResponseValue)) :
    (Nat × WriterPending) × List (Nat × ResponseValue) :=
  let m := batch.foldl (fun acc msg => pendingInsert acc msg.1 msg.2) st.2
  let r := drainReady st.1 m
  ((r.1, r.2.1), r.2.2)

/-- The writer task over a whole arrival schedule: starting from last
sequence 0 and an empty pending map, process each batch in turn and
concatenate the emitted traces. -/
def runWriter (batches : List (List (Nat × ResponseValue))) :
    (Nat × WriterPending) × List (Nat × ResponseValue) :=
  batches.foldl
    (fun acc b =>
      let r := processBatch acc.1 b
      (r.1, acc.2 ++ r.2))
    ((0, []), [])

/-- The never-empty-container invariant of the store: no key is bound to
an empty list or an empty set. -/
def NoEmptyDb (db : Db) : Prop :=
  ∀ p ∈ db, p.2 ≠ RedisValue.list [] ∧ p.2 ≠ RedisValue.set []

/-- Invariant of the writer loop relative to the multiset S of sequence
numbers that have arrived so far: the pending keys are distinct and are
exactly the arrived sequences above the last emitted one, every sequence
up to the last emitted has arrived, and the next sequence to emit has
not. -/
def WriterInv (S : List Nat) (st : Nat × WriterPending) : Prop :=
  (st.2.map Prod.fst).Nodup
  ∧ (∀ s, s ∈ st.2.map Prod.fst ↔ (s ∈ S ∧ st.1 < s))
  ∧ (∀ i, 1 ≤ i → i ≤ st.1 → i ∈ S)
  ∧ (st.1 + 1) ∉ S

instance (db : Db) : Decidable (NoEmptyDb db) := by
  unfold NoEmptyDb
  infer_instance

/-! Theorems. -/

theorem collectBulks_map (vals : List ByteStr) :
    collectBulks (vals.map (fun b => .bulkString (some b))) = some vals := by
  induction vals with
  | nil => rfl
  | cons v vs ih => simp [collectBulks, ih]

theorem mem_dbInsert (db : Db) (k : ByteStr) (v : RedisValue) (p) :
    p ∈ dbInsert db k v → p = (k, v) ∨ p ∈ db := by
  induction db with
  | nil => simp [dbInsert]
  | cons q rest ih =>
    simp only [dbInsert]
    by_cases h : q.1 = k
    · rw [if_pos h]
      intro hp
      rcases List.mem_cons.mp hp with hp | hp
      · exact Or.inl hp
      · exact Or.inr (List.mem_cons_of_mem _ hp)
    · rw [if_neg h]
      intro hp
      rcases List.mem_cons.mp hp with hp | hp
      · exact Or.inr (hp ▸ List.mem_cons_self _ _)
      · rcases ih hp with hh | hh
        · exact Or.inl hh
        · exact Or.inr (List.mem_cons_of_mem _ hh)

theorem noEmpty_dbInsert {db : Db} {k : ByteStr} {v : RedisValue}
    (hdb : NoEmptyDb db) (hl : v ≠ RedisValue.list [])
    (hs : v ≠ RedisValue.set []) : NoEmptyDb (dbInsert db k v) := by
  intro p hp
  rcases mem_dbInsert db k v p hp with h | h
  · subst h; exact ⟨hl, hs⟩
  · exact hdb p h

theorem noEmpty_dbRemove {db : Db} (k : ByteStr) (hdb : NoEmptyDb db) :
    NoEmptyDb (dbRemove db k) := by
  intro p hp
  exact hdb p (List.mem_of_mem_filter hp)

theorem foldl_consPush_length (vs : List ByteStr) (acc : List ByteStr) :
    (vs.foldl (fun acc v => v :: acc) acc).length = acc.length + vs.length := by
  induction vs generalizing acc with
  | nil => simp
  | cons v rest ih => simp [ih]; omega

theorem foldl_appendPush_length (vs : List ByteStr) (acc : List ByteStr) :
    (vs.foldl (fun acc v => acc ++ [v]) acc).length = acc.length + vs.length := by
  induction vs generalizing acc with
  | nil => simp
  | cons v rest ih => simp [ih]; omega

theorem setInsert_ne_nil (acc : List ByteStr) (v : ByteStr) :
    setInsert acc v ≠ [] := by
  unfold setInsert
  by_cases h : v ∈ acc
  · rw [if_pos h]
    intro hc
    rw [hc] at h
    exact absurd h (List.not_mem_nil v)
  · rw [if_neg h]
    intro hc
    exact absurd hc (by simp)

theorem foldl_setInsert_ne_nil (vs : List ByteStr) (acc : List ByteStr)
    (h : acc ≠ [] ∨ vs ≠ []) : vs.foldl setInsert acc ≠ [] := by
  induction vs generalizing acc with
  | nil =>
    rcases h with h | h
    · simpa using h
    · exact absurd rfl h
  | cons v rest ih =>
    simp only [List.foldl_cons]
    exact ih (setInsert acc v) (Or.inl (setInsert_ne_nil acc v))

theorem mem_foldl_setInsert (vs : List ByteStr) (acc : List ByteStr) (v : ByteStr) :
    v ∈ vs.foldl setInsert acc ↔ v ∈ acc ∨ v ∈ vs := by
  induction vs generalizing acc with
  | nil => simp
  | cons w rest ih =>
    simp only [List.foldl_cons, ih, setInsert]
    by_cases hw : w ∈ acc
    · rw [if_pos hw]
      constructor
      · rintro (h | h)
        · exact Or.inl h
        · simp [h]
      · rintro (h | h)
        · exact Or.inl h
        · rcases List.mem_cons.mp h with h | h
          · exact Or.inl (h ▸ hw)
          · exact Or.inr h
    · rw [if_neg hw]
      simp only [List.mem_append, List.mem_singleton, List.mem_cons]
      tauto

theorem nodup_foldl_setInsert (vs : List ByteStr) (acc : List ByteStr)
    (h : acc.Nodup) : (vs.foldl setInsert acc).Nodup := by
  induction vs generalizing acc with
  | nil => simpa
  | cons w rest ih =>
    simp only [List.foldl_cons]
    apply ih
    unfold setInsert
    by_cases hw : w ∈ acc
    · rwa [if_pos hw]
    · rw [if_neg hw]
      refine List.Nodup.append h (List.nodup_singleton w) ?_
      intro a ha hb
      rw [List.mem_singleton] at hb
      exact hw (hb ▸ ha)

theorem popReply_of_length_ne_one (popped : List ByteStr)
    (h : popped.length ≠ 1) :
    popReply popped
      = .array (some (popped.map (fun b => .bulkString (some b)))) := by
  match popped with
  | [] => rfl
  | [x] => exact absurd rfl h
  | x :: y :: rest => rfl

/-- C4 counterexample: with key k holding the String v, LPUSH k x through
the command executor replies with the error text ERR internal db error:
WrongType, which differs from the WRONGTYPE sentinel the claim states
(the store is nevertheless unchanged, as the amended theorem shows). -/
theorem c4_wrongtype_counterexample :
    (handleLpush [([107], RedisValue.string [118])]
        [.bulkString (some [107]), .bulkString (some [120])]).1
      = .error (strBytes "ERR internal db error: WrongType")
    ∧ strBytes "ERR internal db error: WrongType"
      ≠ strBytes
          "WRONGTYPE Operation against a key holding the wrong kind of value" :=
  ⟨rfl, by decide⟩

/-- C4 amended: for every key currently holding a String value, LPUSH on
that key through the command executor produces exactly the error reply
ERR internal db error: WrongType (not the WRONGTYPE sentinel, which only
GET produces), and the store is left unchanged. -/
theorem c4_wrongtype_amended (db : Db) (key v : ByteStr) (vals : List ByteStr)
    (h : dbLookup db key = some (.string v)) :
    handleLpush db
        (.bulkString (some key) :: vals.map (fun b => .bulkString (some b)))
      = (.error (strBytes "ERR internal db error: WrongType"), db) := by
  simp [handleLpush, collectBulks_map, kvLpush, h, dbgDatabaseError]

/-- C4 witness: the amended theorem applied at a concrete store. -/
theorem c4_wrongtype_amended_witness :
    dbLookup [([107], RedisValue.string [118])] [107]
      = some (.string [118])
    ∧ handleLpush [([107], RedisValue.string [118])]
        (.bulkString (some [107])
          :: ([[120]] : List ByteStr).map (fun b => .bulkString (some b)))
      = (.error (strBytes "ERR internal db error: WrongType"),
         [([107], RedisValue.string [118])]) :=
  ⟨rfl, c4_wrongtype_amended _ _ _ [[120]] rfl⟩

/-- C5: on the stored list [a, b, c], LRANGE with start 2 and stop 1 must
yield the empty list by the spec's range rules (start exceeds stop after
clamping), but the code returns [a]: resolve_range collapses the empty
range to the sentinel (0, 0), which lrange then reads back as the real
one-element range [0, 0]. -/
theorem c5_lrange_sentinel_bug :
    kvLrange [([107], RedisValue.list [[97], [98], [99]])] [107] 2 1
      = .ok [[97]]
    ∧ resolveRange 2 1 3 = (0, 0)
    ∧ ([[97]] : List ByteStr) ≠ [] := by
  refine ⟨rfl, by decide, by decide⟩

/-- C6 counterexample: on a prior set \x7ba\x7d, sadd with the single new
member b returns 2 — the cardinality of the set after insertion — though
only one member was newly inserted, so the claimed return value (count of
newly inserted members) is wrong for non-empty prior sets. -/
theorem c6_sadd_counterexample :
    kvSadd [([107], RedisValue.set [[97]])] [107] [[98]]
      = .ok (2, [([107], RedisValue.set [[97], [98]])])
    ∧ [98] ∉ ([[97]] : List ByteStr)
    ∧ (2 : Int) ≠ 1 :=
  ⟨rfl, by decide, by decide⟩

/-- C6 amended: sadd returns the total cardinality of the set after the
insertions — the prior members together with the distinct new ones — not
the count of newly inserted members; duplicates within one call still
count once, so on an empty or missing prior set the returned value does
equal the number of distinct argument members. -/
theorem c6_sadd_amended (db : Db) (key : ByteStr) (s0 vals : List ByteStr)
    (h : dbLookup db key = some (.set s0)) (hnd : s0.Nodup) :
    ∃ s, kvSadd db key vals = .ok ((s.length : Int), dbInsert db key (.set s))
      ∧ s.Nodup ∧ (∀ v, v ∈ s ↔ v ∈ s0 ∨ v ∈ vals) := by
  refine ⟨vals.foldl setInsert s0, by simp [kvSadd, h], ?_, ?_⟩
  · exact nodup_foldl_setInsert vals s0 hnd
  · intro v
    exact mem_foldl_setInsert vals s0 v

/-- C6 witness: the amended theorem applied at a concrete store. -/
theorem c6_sadd_amended_witness :
    dbLookup [([107], RedisValue.set [[97]])] [107] = some (.set [[97]])
    ∧ ([[97]] : List ByteStr).Nodup
    ∧ ∃ s, kvSadd [([107], RedisValue.set [[97]])] [107] [[98]]
        = .ok ((s.length : Int), dbInsert [([107], RedisValue.set [[97]])] [107] (.set s))
        ∧ s.Nodup ∧ (∀ v, v ∈ s ↔ v ∈ ([[97]] : List ByteStr) ∨ v ∈ ([[98]] : List ByteStr)) :=
  ⟨rfl, by decide, c6_sadd_amended _ _ _ [[98]] rfl (by decide)⟩

/-- C7 counterexample: LPOP with the explicit count 5 on a one-element
list pops exactly one item and replies with a single BulkString, although
the claim demands an Array whenever the count differs from 1. -/
theorem c7_pop_shape_counterexample :
    (handleLpop [([107], RedisValue.list [[97]])]
        [.bulkString (some [107]), .bulkString (some [53])]).1
      = .bulkString (some [97])
    ∧ lossyParseI64 [53] = some 5
    ∧ ∀ o, ResponseValue.bulkString (some [97]) ≠ .array o :=
  ⟨rfl, rfl, fun _ h => nomatch h⟩

/-- C7 amended: for LPOP and RPOP the reply is a single BulkString
exactly when exactly one item was popped, whatever the requested count;
in every other case (zero or several popped) it is an Array of
BulkStrings, possibly empty. -/
theorem c7_pop_reply_shape (db : Db) (key cb : ByteStr) (n : Int)
    (popped1 popped2 : List ByteStr) (db1 db2 : Db)
    (hc : lossyParseI64 cb = some n)
    (h1 : kvLpop db key n = .ok (popped1, db1))
    (h2 : kvRpop db key n = .ok (popped2, db2)) :
    ((handleLpop db [.bulkString (some key), .bulkString (some cb)]).1
        = popReply popped1
      ∧ (∀ x, popped1 = [x] → popReply popped1 = .bulkString (some x))
      ∧ (popped1.length ≠ 1 → popReply popped1
          = .array (some (popped1.map (fun b => .bulkString (some b))))))
    ∧ ((handleRpop db [.bulkString (some key), .bulkString (some cb)]).1
        = popReply popped2
      ∧ (∀ x, popped2 = [x] → popReply popped2 = .bulkString (some x))
      ∧ (popped2.length ≠ 1 → popReply popped2
          = .array (some (popped2.map (fun b => .bulkString (some b)))))) := by
  constructor
  · refine ⟨?_, ?_, popReply_of_length_ne_one popped1⟩
    · simp [handleLpop, hc, h1]
    · intro x hx; subst hx; rfl
  · refine ⟨?_, ?_, popReply_of_length_ne_one popped2⟩
    · simp [handleRpop, hc, h2]
    · intro x hx; subst hx; rfl

/-- C7 witness: the amended theorem applied at a concrete store and
count. -/
theorem c7_pop_reply_shape_witness :
    lossyParseI64 [53] = some 5
    ∧ kvLpop [([107], RedisValue.list [[97]])] [107] 5 = .ok ([[97]], [])
    ∧ kvRpop [([107], RedisValue.list [[97]])] [107] 5 = .ok ([[97]], [])
    ∧ (handleLpop [([107], RedisValue.list [[97]])]
        [.bulkString (some [107]), .bulkString (some [53])]).1
        = popReply [[97]] :=
  ⟨rfl, rfl, rfl,
    ((c7_pop_reply_shape [([107], RedisValue.list [[97]])] [107] [53] 5
      [[97]] [[97]] [] [] rfl rfl rfl).1).1⟩

/-- C8: the router's PING interception replies with
ResponseValue::Error("PONG") — send_string builds an Error value — which
serializes as an error frame, while the command executor replies with the
SimpleString PONG; the two disagree, contradicting both the stated PING
reply and the required router/executor equivalence. -/
theorem c8_ping_router_mismatch :
    routeMessage (fun _ => 0) 1
        (.array (some [.bulkString (some (strBytes "PING"))])) 7
      = .direct ⟨7, .error (strBytes "PONG")⟩
    ∧ (processCommand []
        (.array (some [.bulkString (some (strBytes "PING"))]))).1
      = .simpleString (strBytes "PONG")
    ∧ ∀ s, ResponseValue.error s ≠ .simpleString s :=
  ⟨rfl, rfl, fun _ h => nomatch h⟩

/-- C9 counterexample: lpush with zero values on a missing key creates
the key bound to an empty list and leaves it in the map, violating the
claimed invariant for push operations given zero values. -/
theorem c9_empty_push_counterexample :
    kvLpush ([] : Db) [107] [] = .ok (0, [([107], RedisValue.list [])])
    ∧ ¬ NoEmptyDb [([107], RedisValue.list [])] := by
  refine ⟨rfl, ?_⟩
  intro h
  exact absurd rfl (h ([107], RedisValue.list []) (by simp)).1

/-- C9 amended: the never-empty invariant is preserved by set and del, by
every pop (the last pop removes the key in the same operation), and by
every push or add given at least one value; only a push or add with zero
values can break it (by creating an empty container on a missing key), so
that hypothesis is required for lpush, rpush and sadd. -/
theorem c9_no_empty_invariant (db : Db) (hdb : NoEmptyDb db) :
    (∀ k v db2, kvSet db k v = .ok ((), db2) → NoEmptyDb db2)
    ∧ (∀ k r db2, kvDel db k = .ok (r, db2) → NoEmptyDb db2)
    ∧ (∀ k vs r db2, vs ≠ [] → kvLpush db k vs = .ok (r, db2) → NoEmptyDb db2)
    ∧ (∀ k vs r db2, vs ≠ [] → kvRpush db k vs = .ok (r, db2) → NoEmptyDb db2)
    ∧ (∀ k c r db2, kvLpop db k c = .ok (r, db2) → NoEmptyDb db2)
    ∧ (∀ k c r db2, kvRpop db k c = .ok (r, db2) → NoEmptyDb db2)
    ∧ (∀ k vs r db2, vs ≠ [] → kvSadd db k vs = .ok (r, db2) → NoEmptyDb db2)
    ∧ (∀ k c r db2, kvSpop db k c = .ok (r, db2) → NoEmptyDb db2) := by
  refine ⟨?_, ?_, ?_, ?_, ?_, ?_, ?_, ?_⟩
  · intro k v db2 h
    obtain ⟨rfl⟩ : db2 = dbInsert db k (.string v) := by
      simpa [kvSet] using h.symm
    exact noEmpty_dbInsert hdb (by simp) (by simp)
  · intro k r db2 h
    obtain ⟨rfl⟩ : db2 = dbRemove db k := by
      simpa [kvDel] using congrArg (fun x => match x with
        | Except.ok p => p.2 | Except.error _ => db2) h.symm
    exact noEmpty_dbRemove k hdb
  · intro k vs r db2 hvs h
    rcases hlook : dbLookup db k with _ | v
    · rw [kvLpush, hlook] at h
      obtain ⟨rfl⟩ : db2 = dbInsert db k (.list (vs.foldl (fun acc v => v :: acc) [])) := by
        simpa using congrArg (fun x => match x with
          | Except.ok p => p.2 | Except.error _ => db2) h.symm
      refine noEmpty_dbInsert hdb ?_ (by simp)
      intro hc
      have := congrArg List.length (RedisValue.list.inj hc)
      rw [foldl_consPush_length] at this
      simp at this
      exact hvs this
    · rw [kvLpush, hlook] at h
      match v, h with
      | .list l0, h =>
        obtain ⟨rfl⟩ : db2 = dbInsert db k (.list (vs.foldl (fun acc v => v :: acc) l0)) := by
          simpa using congrArg (fun x => match x with
            | Except.ok p => p.2 | Except.error _ => db2) h.symm
        refine noEmpty_dbInsert hdb ?_ (by simp)
        intro hc
        have := congrArg List.length (RedisValue.list.inj hc)
        rw [foldl_consPush_length] at this
        simp at this
        exact hvs this.2
  · intro k vs r db2 hvs h
    rcases hlook : dbLookup db k with _ | v
    · rw [kvRpush, hlook] at h
      obtain ⟨rfl⟩ : db2 = dbInsert db k (.list (vs.foldl (fun acc v => acc ++ [v]) [])) := by
        simpa using congrArg (fun x => match x with
          | Except.ok p => p.2 | Except.error _ => db2) h.symm
      refine noEmpty_dbInsert hdb ?_ (by simp)
      intro hc
      have := congrArg List.length (RedisValue.list.inj hc)
      rw [foldl_appendPush_length] at this
      simp at this
      exact hvs this
    · rw [kvRpush, hlook] at h
      match v, h with
      | .list l0, h =>
        obtain ⟨rfl⟩ : db2 = dbInsert db k (.list (vs.foldl (fun acc v => acc ++ [v]) l0)) := by
          simpa using congrArg (fun x => match x with
            | Except.ok p => p.2 | Except.error _ => db2) h.symm
        refine noEmpty_dbInsert hdb ?_ (by simp)
        intro hc
        have := congrArg List.length (RedisValue.list.inj hc)
        rw [foldl_appendPush_length] at this
        simp at this
        exact hvs this.2
  · intro k c r db2 h
    rcases hlook : dbLookup db k with _ | v
    · rw [kvLpop, hlook] at h
      obtain ⟨rfl⟩ : db2 = db := by
        simpa using congrArg (fun x => match x with
          | Except.ok p => p.2 | Except.error _ => db2) h.symm
      exact hdb
    · rw [kvLpop, hlook] at h
      match v, h with
      | .list l, h =>
        simp only at h
        obtain ⟨rfl⟩ : db2 = (if (l.drop (min l.length (usizeOfI64 c))).isEmpty
            then dbRemove db k
            else dbInsert db k (.list (l.drop (min l.length (usizeOfI64 c))))) := by
          simpa using congrArg (fun x => match x with
            | Except.ok p => p.2 | Except.error _ => db2) h.symm
        by_cases he : (l.drop (min l.length (usizeOfI64 c))).isEmpty
        · rw [if_pos he]
          exact noEmpty_dbRemove k hdb
        · rw [if_neg he]
          refine noEmpty_dbInsert hdb ?_ (by simp)
          intro hc
          have := RedisValue.list.inj hc
          rw [this] at he
          simp at he
  · intro k c r db2 h
    rcases hlook : dbLookup db k with _ | v
    · rw [kvRpop, hlook] at h
      obtain ⟨rfl⟩ : db2 = db := by
        simpa using congrArg (fun x => match x with
          | Except.ok p => p.2 | Except.error _ => db2) h.symm
      exact hdb
    · rw [kvRpop, hlook] at h
      match v, h with
      | .list l, h =>
        simp only at h
        obtain ⟨rfl⟩ : db2 = (if (l.take (l.length - min l.length (usizeOfI64 c))).isEmpty
            then dbRemove db k
            else dbInsert db k (.list (l.take (l.length - min l.length (usizeOfI64 c))))) := by
          simpa using congrArg (fun x => match x with
            | Except.ok p => p.2 | Except.error _ => db2) h.symm
        by_cases he : (l.take (l.length - min l.length (usizeOfI64 c))).isEmpty
        · rw [if_pos he]
          exact noEmpty_dbRemove k hdb
        · rw [if_neg he]
          refine noEmpty_dbInsert hdb ?_ (by simp)
          intro hc
          have := RedisValue.list.inj hc
          rw [this] at he
          simp at he
  · intro k vs r db2 hvs h
    rcases hlook : dbLookup db k with _ | v
    · rw [kvSadd, hlook] at h
      obtain ⟨rfl⟩ : db2 = dbInsert db k (.set (vs.foldl setInsert [])) := by
        simpa using congrArg (fun x => match x with
          | Except.ok p => p.2 | Except.error _ => db2) h.symm
      refine noEmpty_dbInsert hdb (by simp) ?_
      intro hc
      exact foldl_setInsert_ne_nil vs [] (Or.inr hvs) (RedisValue.set.inj hc)
    · rw [kvSadd, hlook] at h
      match v, h with
      | .set s0, h =>
        obtain ⟨rfl⟩ : db2 = dbInsert db k (.set (vs.foldl setInsert s0)) := by
          simpa using congrArg (fun x => match x with
            | Except.ok p => p.2 | Except.error _ => db2) h.symm
        refine noEmpty_dbInsert hdb (by simp) ?_
        intro hc
        exact foldl_setInsert_ne_nil vs s0 (Or.inr hvs) (RedisValue.set.inj hc)
  · intro k c r db2 h
    rcases hlook : dbLookup db k with _ | v
    · rw [kvSpop, hlook] at h
      obtain ⟨rfl⟩ : db2 = db := by
        simpa using congrArg (fun x => match x with
          | Except.ok p => p.2 | Except.error _ => db2) h.symm
      exact hdb
    · rw [kvSpop, hlook] at h
      match v, h with
      | .set s, h =>
        simp only at h
        obtain ⟨rfl⟩ : db2 = (if (s.drop (min s.length (usizeOfI64 c))).isEmpty
            then dbRemove db k
            else dbInsert db k (.set (s.drop (min s.length (usizeOfI64 c))))) := by
          simpa using congrArg (fun x => match x with
            | Except.ok p => p.2 | Except.error _ => db2) h.symm
        by_cases he : (s.drop (min s.length (usizeOfI64 c))).isEmpty
        · rw [if_pos he]
          exact noEmpty_dbRemove k hdb
        · rw [if_neg he]
          refine noEmpty_dbInsert hdb (by simp) ?_
          intro hc
          have := RedisValue.set.inj hc
          rw [this] at he
          simp at he

theorem mem_map_fst_pendingInsert (m : WriterPending) (k : Nat)
    (v : ResponseValue) (s : Nat) :
    s ∈ (pendingInsert m k v).map Prod.fst ↔ s = k ∨ s ∈ m.map Prod.fst := by
  induction m with
  | nil => simp [pendingInsert]
  | cons q rest ih =>
    simp only [pendingInsert]
    by_cases h : q.1 = k
    · rw [if_pos h]
      simp [h]
    · rw [if_neg h]
      simp only [List.map_cons, List.mem_cons, ih]
      tauto

theorem nodup_map_fst_pendingInsert (m : WriterPending) (k : Nat)
    (v : ResponseValue) (h : (m.map Prod.fst).Nodup) :
    ((pendingInsert m k v).map Prod.fst).Nodup := by
  induction m with
  | nil => simp [pendingInsert]
  | cons q rest ih =>
    simp only [pendingInsert]
    simp only [List.map_cons, List.nodup_cons] at h
    by_cases hk : q.1 = k
    · rw [if_pos hk]
      simp only [List.map_cons, List.nodup_cons]
      exact ⟨hk ▸ h.1, h.2⟩
    · rw [if_neg hk]
      simp only [List.map_cons, List.nodup_cons]
      refine ⟨?_, ih h.2⟩
      rw [mem_map_fst_pendingInsert]
      rintro (hc | hc)
      · exact hk hc
      · exact h.1 hc

theorem drainReady_of_find_none (last : Nat) (m : WriterPending)
    (h : m.find? (fun p => p.1 == last + 1) = none) :
    drainReady last m = (last, m, []) := by
  rw [drainReady]
  split
  · rfl
  · rename_i pv hfind
    rw [h] at hfind
    exact absurd hfind (by simp)

theorem drainReady_of_find_some (last : Nat) (m : WriterPending)
    (pv : Nat × ResponseValue)
    (h : m.find? (fun p => p.1 == last + 1) = some pv) :
    drainReady last m =
      ((drainReady (last + 1) (m.filter (fun p => p.1 != last + 1))).1,
       (drainReady (last + 1) (m.filter (fun p => p.1 != last + 1))).2.1,
       (last + 1, pv.2)
         :: (drainReady (last + 1)
              (m.filter (fun p => p.1 != last + 1))).2.2) := by
  rw [drainReady]
  split
  · rename_i hfind
    rw [h] at hfind
    exact absurd hfind (by simp)
  · rename_i pv2 hfind
    rw [h] at hfind
    have hpv : pv2 = pv := by
      injection hfind with he
      exact he.symm
    subst hpv
    rfl

theorem mem_map_fst_filter_ne (m : WriterPending) (n s : Nat) :
    s ∈ (m.filter (fun p => p.1 != n)).map Prod.fst
      ↔ s ∈ m.map Prod.fst ∧ s ≠ n := by
  constructor
  · intro h
    rcases List.mem_map.mp h with ⟨p, hp, rfl⟩
    have hmem := List.mem_of_mem_filter hp
    have hcond := List.of_mem_filter hp
    simp only [bne_iff_ne, ne_eq] at hcond
    exact ⟨List.mem_map_of_mem _ hmem, hcond⟩
  · rintro ⟨h, hne⟩
    rcases List.mem_map.mp h with ⟨p, hp, rfl⟩
    refine List.mem_map_of_mem _ (List.mem_filter.mpr ⟨hp, ?_⟩)
    simpa using hne

/-- Specification of the drain loop: starting at last with pending map m
whose keys are distinct, the loop emits exactly the maximal contiguous
run last+1, last+2, ..., ending at a final sequence at least last; the
run's members were all pending, the remaining map holds exactly the other
keys, its keys stay distinct, and the successor of the final sequence was
not pending. -/
theorem drainReady_spec : ∀ (N : Nat) (last : Nat) (m : WriterPending),
    m.length ≤ N → (m.map Prod.fst).Nodup →
    last ≤ (drainReady last m).1
    ∧ (drainReady last m).2.2.map Prod.fst
        = List.range' (last + 1) ((drainReady last m).1 - last)
    ∧ (∀ s, s ∈ (drainReady last m).2.1.map Prod.fst
        ↔ s ∈ m.map Prod.fst ∧ ¬(last + 1 ≤ s ∧ s ≤ (drainReady last m).1))
    ∧ (∀ s, last + 1 ≤ s → s ≤ (drainReady last m).1 → s ∈ m.map Prod.fst)
    ∧ ((drainReady last m).1 + 1) ∉ m.map Prod.fst
    ∧ ((drainReady last m).2.1.map Prod.fst).Nodup := by
  intro N
  induction N with
  | zero =>
    intro last m hlen hnd
    have hm : m = [] := List.length_eq_zero.mp (Nat.le_zero.mp hlen)
    subst hm
    rw [drainReady_of_find_none last [] rfl]
    refine ⟨Nat.le_refl _, by simp, by simp, ?_, by simp, by simp⟩
    intro s h1 h2
    omega
  | succ n ih =>
    intro last m hlen hnd
    rcases hfind : m.find? (fun p => p.1 == last + 1) with _ | pv
    · rw [drainReady_of_find_none last m hfind]
      refine ⟨Nat.le_refl _, by simp, ?_, ?_, ?_, hnd⟩
      · intro s
        constructor
        · intro hs
          exact ⟨hs, by omega⟩
        · intro hs
          exact hs.1
      · intro s h1 h2
        omega
      · intro hc
        rcases List.mem_map.mp hc with ⟨p, hp, hps⟩
        have := List.find?_eq_none.mp hfind p hp
        simp only [beq_iff_eq] at this
        exact this hps
    ·
      have hpv1 : pv.1 = last + 1 := by
        have := List.find?_some hfind
        simpa using this
      have hpvmem : pv ∈ m := List.mem_of_find?_eq_some hfind
      set m2 := m.filter (fun p => p.1 != last + 1) with hm2
      have hlen2 : m2.length ≤ n := by
        have hlt : m2.length < m.length := by
          apply List.length_filter_lt_length_iff_exists.mpr
          exact ⟨pv, hpvmem, by simp [hpv1]⟩
        omega
      have hnd2 : (m2.map Prod.fst).Nodup := by
        rw [hm2]
        apply List.Nodup.sublist _ hnd
        exact List.Sublist.map _ (List.filter_sublist m)
      have IH := ih (last + 1) m2 hlen2 hnd2
      rw [drainReady_of_find_some last m pv hfind]
      obtain ⟨iha, ihb, ihc, ihd, ihe, ihf⟩ := IH
      set r := drainReady (last + 1) m2 with hr
      refine ⟨by omega, ?_, ?_, ?_, ?_, ihf⟩
      · simp only [List.map_cons, ihb]
        have : r.1 - last = (r.1 - (last + 1)) + 1 := by omega
        rw [this, List.range'_succ]
      · intro s
        rw [ihc s, mem_map_fst_filter_ne]
        constructor
        · rintro ⟨⟨hs, hne⟩, hnot⟩
          exact ⟨hs, by omega⟩
        · rintro ⟨hs, hnot⟩
          exact ⟨⟨hs, by omega⟩, by omega⟩
      · intro s h1 h2
        by_cases hs : s = last + 1
        · subst hs
          have hmm := List.mem_map_of_mem Prod.fst hpvmem
          rw [hpv1] at hmm
          exact hmm
        · have := ihd s (by omega) h2
          exact ((mem_map_fst_filter_ne m (last + 1) s).mp this).1
      · intro hc
        have : r.1 + 1 ∈ m2.map Prod.fst := by
          rw [mem_map_fst_filter_ne]
          exact ⟨hc, by omega⟩
        exact ihe this

theorem mem_map_fst_foldl_pendingInsert (B : List (Nat × ResponseValue))
    (P : WriterPending) (s : Nat) :
    s ∈ (B.foldl (fun acc msg => pendingInsert acc msg.1 msg.2) P).map Prod.fst
      ↔ s ∈ P.map Prod.fst ∨ s ∈ B.map Prod.fst := by
  induction B generalizing P with
  | nil => simp
  | cons b rest ih =>
    simp only [List.foldl_cons, ih, mem_map_fst_pendingInsert, List.map_cons,
      List.mem_cons]
    tauto

theorem nodup_map_fst_foldl_pendingInsert (B : List (Nat × ResponseValue))
    (P : WriterPending) (h : (P.map Prod.fst).Nodup) :
    ((B.foldl (fun acc msg => pendingInsert acc msg.1 msg.2) P).map
        Prod.fst).Nodup := by
  induction B generalizing P with
  | nil => simpa
  | cons b rest ih =>
    simp only [List.foldl_cons]
    exact ih _ (nodup_map_fst_pendingInsert P b.1 b.2 h)

/-- One writer wake-up preserves the invariant: with the batch's
sequences fresh (not yet arrived), distinct and positive, the new state
satisfies the invariant for the extended arrival multiset and the batch's
emitted trace is exactly the contiguous run from the old to the new last
sequence. -/
theorem processBatch_spec (S : List Nat) (last : Nat) (P : WriterPending)
    (B : List (Nat × ResponseValue))
    (hinv : WriterInv S (last, P))
    (hdisj : ∀ s ∈ B.map Prod.fst, s ∉ S)
    (hB1 : ∀ s ∈ B.map Prod.fst, 1 ≤ s) :
    WriterInv (S ++ B.map Prod.fst) (processBatch (last, P) B).1
    ∧ last ≤ (processBatch (last, P) B).1.1
    ∧ (processBatch (last, P) B).2.map Prod.fst
        = List.range' (last + 1) ((processBatch (last, P) B).1.1 - last) := by
  obtain ⟨hnd, hiff, hle, hnext⟩ := hinv
  set M := B.foldl (fun acc msg => pendingInsert acc msg.1 msg.2) P with hM
  have hMnd : (M.map Prod.fst).Nodup := nodup_map_fst_foldl_pendingInsert B P hnd
  have hMiff : ∀ s, s ∈ M.map Prod.fst
      ↔ (s ∈ S ++ B.map Prod.fst ∧ last < s) := by
    intro s
    rw [hM, mem_map_fst_foldl_pendingInsert]
    constructor
    · rintro (h | h)
      · have := (hiff s).mp h
        exact ⟨List.mem_append_left _ this.1, this.2⟩
      · refine ⟨List.mem_append_right _ h, ?_⟩
        by_contra hc
        push_neg at hc
        exact hdisj s h (hle s (hB1 s h) hc)
    · rintro ⟨h, hlast⟩
      rcases List.mem_append.mp h with h | h
      · exact Or.inl ((hiff s).mpr ⟨h, hlast⟩)
      · exact Or.inr h
  have hspec := drainReady_spec M.length last M (Nat.le_refl _) hMnd
  obtain ⟨ha, hb, hc, hd, he, hf⟩ := hspec
  have hpb : processBatch (last, P) B
      = ((((drainReady last M).1), (drainReady last M).2.1),
         (drainReady last M).2.2) := by
    simp [processBatch, hM]
  rw [hpb]
  set r := drainReady last M with hrdef
  dsimp only
  refine ⟨⟨hf, ?_, ?_, ?_⟩, ha, hb⟩
  · intro s
    rw [hc s, hMiff s]
    constructor
    · rintro ⟨⟨hs, hlast⟩, hnot⟩
      exact ⟨hs, by omega⟩
    · rintro ⟨hs, hgt⟩
      exact ⟨⟨hs, by omega⟩, by omega⟩
  · intro i h1 h2
    by_cases hil : i ≤ last
    · exact List.mem_append_left _ (hle i h1 hil)
    · have := hd i (by omega) h2
      exact ((hMiff i).mp this).1
  · intro hcmem
    have : r.1 + 1 ∈ M.map Prod.fst := (hMiff _).mpr ⟨hcmem, by omega⟩
    exact he this

/-- The writer loop over a schedule of batches, generalized over the
already-arrived multiset and the trace emitted so far. -/
theorem runWriter_aux :
    ∀ (bs : List (List (Nat × ResponseValue))) (S : List Nat)
      (st : Nat × WriterPending) (acc : List (Nat × ResponseValue)),
    WriterInv S st →
    acc.map Prod.fst = List.range' 1 st.1 →
    (S ++ (bs.flatten).map Prod.fst).Nodup →
    (∀ s ∈ (bs.flatten).map Prod.fst, 1 ≤ s) →
    WriterInv (S ++ (bs.flatten).map Prod.fst)
        (bs.foldl
          (fun acc b =>
            let r := processBatch acc.1 b
            (r.1, acc.2 ++ r.2)) (st, acc)).1
    ∧ ((bs.foldl
          (fun acc b =>
            let r := processBatch acc.1 b
            (r.1, acc.2 ++ r.2)) (st, acc)).2).map Prod.fst
        = List.range' 1
            (bs.foldl
              (fun acc b =>
                let r := processBatch acc.1 b
                (r.1, acc.2 ++ r.2)) (st, acc)).1.1 := by
  intro bs
  induction bs with
  | nil =>
    intro S st acc hinv hacc hnd h1
    simpa using ⟨hinv, hacc⟩
  | cons b rest ih =>
    intro S st acc hinv hacc hnd h1
    obtain ⟨last, P⟩ := st
    have hndparts : (S ++ b.map Prod.fst).Nodup
        ∧ ((S ++ b.map Prod.fst) ++ (rest.flatten).map Prod.fst).Nodup := by
      simp only [List.flatten_cons, List.map_append] at hnd
      rw [List.append_assoc]
      constructor
      · rcases List.nodup_append.mp hnd with ⟨hS, hrest, hdisj⟩
        rcases List.nodup_append.mp hrest with ⟨hbm, _, _⟩
        rw [List.nodup_append]
        refine ⟨hS, hbm, ?_⟩
        intro a haS habm
        exact hdisj haS (List.mem_append_left _ habm)
      · exact hnd
    have hdisjb : ∀ s ∈ b.map Prod.fst, s ∉ S := by
      intro s hs hsS
      rcases List.nodup_append.mp hndparts.1 with ⟨_, _, hdisj⟩
      exact hdisj hsS hs
    have hb1 : ∀ s ∈ b.map Prod.fst, 1 ≤ s := by
      intro s hs
      apply h1
      simp only [List.flatten_cons, List.map_append, List.mem_append]
      exact Or.inl hs
    have hstep := processBatch_spec S last P b hinv hdisjb hb1
    obtain ⟨hinv2, hle2, htrace2⟩ := hstep
    dsimp only at hacc
    have hacc2 : (acc ++ (processBatch (last, P) b).2).map Prod.fst
        = List.range' 1 (processBatch (last, P) b).1.1 := by
      rw [List.map_append, hacc, htrace2]
      have h11 : (1 : Nat) + 1 * last = last + 1 := by omega
      have hr := List.range'_append 1 last ((processBatch (last, P) b).1.1 - last) 1
      rw [h11] at hr
      rw [hr]
      congr 1
      omega
    have hrest1 : ∀ s ∈ (rest.flatten).map Prod.fst, 1 ≤ s := by
      intro s hs
      apply h1
      simp only [List.flatten_cons, List.map_append, List.mem_append]
      exact Or.inr hs
    have := ih (S ++ b.map Prod.fst) (processBatch (last, P) b).1
      (acc ++ (processBatch (last, P) b).2) hinv2 hacc2 hndparts.2 hrest1
    simp only [List.foldl_cons]
    simp only [List.flatten_cons, List.map_append, ← List.append_assoc]
    exact this

/-- C3: writer strict ordering.  Starting from last sequence 0 and an
empty pending map, for every batching of reply arrivals whose sequence
numbers form (in any order) exactly 1..k, the writer serializes replies
in exactly increasing sequence order: the emitted trace is precisely the
sequence list 1, 2, ..., k, so a reply with sequence s is written only
after all replies with smaller sequences. -/
theorem c3_writer_strict_ordering
    (batches : List (List (Nat × ResponseValue))) (k : Nat)
    (hperm : ((batches.flatten).map Prod.fst).Perm (List.range' 1 k)) :
    ((runWriter batches).2).map Prod.fst = List.range' 1 k := by
  have hinv0 : WriterInv [] (0, ([] : WriterPending)) := by
    refine ⟨by simp, by simp, by intro i h1 h2; omega, by simp⟩
  have hndrange : (List.range' 1 k).Nodup := List.nodup_range' 1 k
  have hndflat : (([] : List Nat)
      ++ (batches.flatten).map Prod.fst).Nodup := by
    simpa using hperm.nodup_iff.mpr hndrange
  have h1flat : ∀ s ∈ (batches.flatten).map Prod.fst, 1 ≤ s := by
    intro s hs
    have := hperm.mem_iff.mp hs
    exact (List.mem_range'_1.mp this).1
  have haux := runWriter_aux batches [] (0, []) [] hinv0 (by simp)
    hndflat h1flat
  obtain ⟨hinvF, htraceF⟩ := haux
  have hrun : runWriter batches
      = batches.foldl
          (fun acc b =>
            let r := processBatch acc.1 b
            (r.1, acc.2 ++ r.2)) (((0 : Nat), ([] : WriterPending)), []) := rfl
  rw [hrun, htraceF]
  obtain ⟨hndF, hiffF, hleF, hnextF⟩ := hinvF
  set lastF := (batches.foldl
      (fun acc b =>
        let r := processBatch acc.1 b
        (r.1, acc.2 ++ r.2)) (((0 : Nat), ([] : WriterPending)), [])).1.1
    with hlastF
  have hmemS : ∀ s, s ∈ ([] : List Nat) ++ (batches.flatten).map Prod.fst
      ↔ (1 ≤ s ∧ s < 1 + k) := by
    intro s
    rw [List.nil_append]
    rw [hperm.mem_iff]
    exact List.mem_range'_1
  have hlek : lastF ≤ k := by
    by_contra hc
    push_neg at hc
    have := hleF (k + 1) (by omega) (by omega)
    have := (hmemS (k + 1)).mp this
    omega
  have hgek : k ≤ lastF := by
    by_contra hc
    push_neg at hc
    exact hnextF ((hmemS (lastF + 1)).mpr (by omega))
  have : lastF = k := le_antisymm hlek hgek
  rw [this]

/-- C3 witness: a concrete out-of-order schedule (sequence 2 first, then
3 and 1 in one batch) whose emitted trace is 1, 2, 3. -/
theorem c3_writer_strict_ordering_witness :
    ((([[(2, ResponseValue.integer 0)],
        [(3, ResponseValue.integer 0), (1, ResponseValue.integer 0)]]
          : List (List (Nat × ResponseValue))).flatten).map Prod.fst).Perm
        (List.range' 1 3)
    ∧ ((runWriter [[(2, ResponseValue.integer 0)],
        [(3, ResponseValue.integer 0), (1, ResponseValue.integer 0)]]).2).map
          Prod.fst = List.range' 1 3 :=
  ⟨by decide,
   c3_writer_strict_ordering
     [[(2, ResponseValue.integer 0)],
      [(3, ResponseValue.integer 0), (1, ResponseValue.integer 0)]] 3
     (by decide)⟩

theorem findCrlf_spec : ∀ (data : List Nat) (he : Nat),
    findCrlf data = some he →
    ∃ rest, data.drop he = 13 :: 10 :: rest := by
  intro data
  induction data with
  | nil => intro he h; exact absurd h (by simp [findCrlf])
  | cons b tail ih =>
    intro he h
    rw [findCrlf] at h
    by_cases hcr : b = 13 ∧ tail.head? = some 10
    · rw [if_pos hcr] at h
      injection h with he0
      subst he0
      rcases tail with _ | ⟨c, rest2⟩
      · exact absurd hcr.2 (by simp)
      · have hc : c = 10 := by
          have := hcr.2
          simp only [List.head?_cons, Option.some.injEq] at this
          exact this
        exact ⟨rest2, by rw [List.drop_zero, hcr.1, hc]⟩
    · rw [if_neg hcr] at h
      rcases hfind : findCrlf tail with _ | he2
      · rw [hfind] at h
        exact absurd h (by simp)
      · rw [hfind] at h
        simp only [Option.map_some', Option.some.injEq] at h
        obtain ⟨rest, hrest⟩ := ih he2 hfind
        refine ⟨rest, ?_⟩
        rw [← h]
        simpa using hrest

theorem findCrlf_bound (data : List Nat) (he : Nat)
    (h : findCrlf data = some he) : he + 2 ≤ data.length := by
  obtain ⟨rest, hrest⟩ := findCrlf_spec data he h
  have := congrArg List.length hrest
  simp only [List.length_drop, List.length_cons] at this
  omega

theorem findCrlf_pos (b : Nat) (rest : List Nat) (he : Nat)
    (h : findCrlf (b :: rest) = some he) (hb : b ≠ 13) : 1 ≤ he := by
  by_contra hc
  push_neg at hc
  interval_cases he
  obtain ⟨r2, hr2⟩ := findCrlf_spec _ _ h
  rw [List.drop_zero] at hr2
  injection hr2 with h1 h2
  exact hb h1

theorem head?_take (l : List Nat) (n : Nat) (hn : 1 ≤ n) :
    (l.take n).head? = l.head? := by
  rcases l with _ | ⟨a, rest⟩
  · simp
  · rcases n with _ | n2
    · omega
    · simp [List.take_succ_cons]

theorem findCrlf_take : ∀ (data : List Nat) (he k : Nat),
    findCrlf data = some he → he + 2 ≤ k →
    findCrlf (data.take k) = some he := by
  intro data
  induction data with
  | nil => intro he k h; exact absurd h (by simp [findCrlf])
  | cons b tail ih =>
    intro he k h hk
    rw [findCrlf] at h
    have hktake : (b :: tail).take k = b :: tail.take (k - 1) := by
      rcases k with _ | k2
      · omega
      · simp [List.take_succ_cons]
    rw [hktake, findCrlf]
    have hhead : (tail.take (k - 1)).head? = tail.head? :=
      head?_take tail (k - 1) (by omega)
    by_cases hcr : b = 13 ∧ tail.head? = some 10
    · rw [if_pos hcr] at h
      rw [if_pos ⟨hcr.1, by rw [hhead]; exact hcr.2⟩]
      exact h
    · rw [if_neg hcr] at h
      rw [if_neg (by rw [hhead]; exact hcr)]
      rcases hfind : findCrlf tail with _ | he2
      · rw [hfind] at h
        exact absurd h (by simp)
      · rw [hfind] at h
        simp only [Option.map_some', Option.some.injEq] at h
        rw [ih he2 (k - 1) hfind (by omega)]
        simp [h]

theorem listSlice_eq_some (l : List Nat) (a b : Nat) (h1 : a ≤ b)
    (h2 : b ≤ l.length) :
    listSlice l a b = some ((l.drop a).take (b - a)) := by
  simp [listSlice, h1, h2]

theorem peekBulkStringSize_ok (data : List Nat) (m : Nat)
    (h : peekBulkStringSize data = .ok m) :
    ∃ he L, findCrlf data = some he
      ∧ parseI64 ((data.drop 1).take (he - 1)) = .ok L
      ∧ ((L < 0 ∧ m = he + 2) ∨ (0 ≤ L ∧ m = he + 2 + L.toNat + 2)) := by
  rw [peekBulkStringSize] at h
  rcases hfind : findCrlf data with _ | he
  · rw [hfind] at h
    exact absurd h (by simp)
  · rw [hfind] at h
    dsimp only at h
    rcases hparse : parseI64 ((data.drop 1).take (he - 1)) with e | L
    · rw [hparse] at h
      exact absurd h (by simp)
    · rw [hparse] at h
      dsimp only at h
      by_cases hL : L < 0
      · rw [if_pos hL] at h
        injection h with hm
        exact ⟨he, L, rfl, hparse, Or.inl ⟨hL, hm.symm⟩⟩
      · rw [if_neg hL] at h
        injection h with hm
        exact ⟨he, L, rfl, hparse, Or.inr ⟨by omega, hm.symm⟩⟩

theorem peekBytesNeeded_line_ok (b : Nat) (rest : List Nat) (m : Nat)
    (hb : b = 43 ∨ b = 45 ∨ b = 58) (h : peekBytesNeeded (b :: rest) = .ok m) :
    ∃ he, findCrlf (b :: rest) = some he ∧ m = he + 2 := by
  rw [peekBytesNeeded] at h
  rw [if_pos hb] at h
  rcases hfind : findCrlf (b :: rest) with _ | he
  · rw [hfind] at h
    exact absurd h (by simp)
  · rw [hfind] at h
    injection h with hm
    exact ⟨he, rfl, hm.symm⟩

theorem peekBytesNeeded_bulk_eq (rest : List Nat) :
    peekBytesNeeded (36 :: rest) = peekBulkStringSize (36 :: rest) := by
  rw [peekBytesNeeded]
  rw [if_neg (by decide), if_pos rfl]

theorem peekBytesNeeded_inline_ok (b : Nat) (rest : List Nat) (m : Nat)
    (hb1 : ¬(b = 43 ∨ b = 45 ∨ b = 58)) (hb2 : b ≠ 36) (hb3 : b ≠ 42)
    (hb4 : isAsciiAlphabetic b = true)
    (h : peekBytesNeeded (b :: rest) = .ok m) :
    ∃ he, findCrlf (b :: rest) = some he ∧ m = he + 2 := by
  rw [peekBytesNeeded] at h
  rw [if_neg hb1, if_neg hb2, if_neg hb3, if_pos hb4] at h
  rcases hfind : findCrlf (b :: rest) with _ | he
  · rw [hfind] at h
    exact absurd h (by simp)
  · rw [hfind] at h
    injection h with hm
    exact ⟨he, rfl, hm.symm⟩

theorem peekBytesNeeded_array_ok (rest : List Nat) (m : Nat)
    (h : peekBytesNeeded (42 :: rest) = .ok m) :
    ∃ he L, findCrlf (42 :: rest) = some he
      ∧ parseI64 (((42 :: rest).drop 1).take (he - 1)) = .ok L
      ∧ ((L < 0 ∧ m = he + 2)
        ∨ (0 ≤ L ∧ peekElems L.toNat (42 :: rest) (he + 2) = .ok m)) := by
  rw [peekBytesNeeded] at h
  rw [if_neg (by decide), if_neg (by decide), if_pos rfl] at h
  rcases hfind : findCrlf (42 :: rest) with _ | he
  · rw [hfind] at h
    exact absurd h (by simp)
  · rw [hfind] at h
    dsimp only at h
    rcases hparse : parseI64 (((42 :: rest).drop 1).take (he - 1)) with e | L
    · rw [hparse] at h
      exact absurd h (by simp)
    · rw [hparse] at h
      dsimp only at h
      by_cases hL : L < 0
      · rw [if_pos hL] at h
        injection h with hm
        exact ⟨he, L, rfl, hparse, Or.inl ⟨hL, hm.symm⟩⟩
      · rw [if_neg hL] at h
        exact ⟨he, L, rfl, hparse, Or.inr ⟨by omega, h⟩⟩

theorem peekBytesNeeded_invalid (b : Nat) (rest : List Nat)
    (hb1 : ¬(b = 43 ∨ b = 45 ∨ b = 58)) (hb2 : b ≠ 36) (hb3 : b ≠ 42)
    (hb4 : ¬ isAsciiAlphabetic b = true) :
    peekBytesNeeded (b :: rest) = .error (.InvalidFirstByte (some b)) := by
  rw [peekBytesNeeded]
  rw [if_neg hb1, if_neg hb2, if_neg hb3, if_neg hb4]

theorem peekElems_unfold_succ (c : Nat) (data : List Nat) (offset : Nat) :
    peekElems (c + 1) data offset
      = if data.length ≤ offset then .error .Incomplete
        else
          match peekBytesNeeded (data.drop offset) with
          | .error e => .error e
          | .ok size => peekElems c data (offset + size) := by
  rw [peekElems]

theorem peekElems_le : ∀ (count : Nat) (data : List Nat) (offset total : Nat),
    peekElems count data offset = .ok total → offset ≤ total := by
  intro count
  induction count with
  | zero =>
    intro data offset total h
    rw [peekElems] at h
    injection h with ht
    omega
  | succ c ih =>
    intro data offset total h
    rw [peekElems_unfold_succ] at h
    by_cases hg : data.length ≤ offset
    · rw [if_pos hg] at h
      exact absurd h (by simp)
    · rw [if_neg hg] at h
      rcases hpk : peekBytesNeeded (data.drop offset) with e | size
      · rw [hpk] at h
        exact absurd h (by simp)
      · rw [hpk] at h
        dsimp only at h
        have := ih data (offset + size) total h
        omega

theorem peekBytesNeeded_ok_ge_two (data : List Nat) (m : Nat)
    (h : peekBytesNeeded data = .ok m) : 2 ≤ m := by
  rcases data with _ | ⟨b, rest⟩
  · rw [peekBytesNeeded] at h
    exact absurd h (by simp)
  · by_cases h1 : b = 43 ∨ b = 45 ∨ b = 58
    · obtain ⟨he, _, hm⟩ := peekBytesNeeded_line_ok b rest m h1 h
      omega
    · by_cases h2 : b = 36
      · subst h2
        rw [peekBytesNeeded_bulk_eq] at h
        obtain ⟨he, L, _, _, hcase⟩ := peekBulkStringSize_ok _ m h
        rcases hcase with ⟨_, hm⟩ | ⟨_, hm⟩ <;> omega
      · by_cases h3 : b = 42
        · subst h3
          obtain ⟨he, L, _, _, hcase⟩ := peekBytesNeeded_array_ok rest m h
          rcases hcase with ⟨_, hm⟩ | ⟨_, helems⟩
          · omega
          · have := peekElems_le _ _ _ _ helems
            omega
        · by_cases h4 : isAsciiAlphabetic b = true
          · obtain ⟨he, _, hm⟩ :=
              peekBytesNeeded_inline_ok b rest m h1 h2 h3 h4 h
            omega
          · rw [peekBytesNeeded_invalid b rest h1 h2 h3 h4] at h
            exact absurd h (by simp)

theorem header_slice_take (data : List Nat) (he k : Nat) (hk : he + 1 ≤ k) :
    ((data.take k).drop 1).take (he - 1) = (data.drop 1).take (he - 1) := by
  rw [List.drop_take, List.take_take]
  congr 1
  omega

theorem take_cons_of_pos (b : Nat) (rest : List Nat) (k : Nat) (hk : 1 ≤ k) :
    (b :: rest).take k = b :: rest.take (k - 1) := by
  rcases k with _ | k2
  · omega
  · simp [List.take_succ_cons]

/-- Truncation stability of the read-only peek pass: when the peek pass
reports a complete frame of m bytes, running it on any prefix of the
buffer that retains at least those m bytes reports the same m.  This is
what lets the commit phase re-parse the detached frame. -/
theorem peekElems_take_stable :
    ∀ (count : Nat) (data : List Nat) (offset : Nat), ∀ (total k : Nat),
      peekElems count data offset = .ok total → total ≤ k →
      k ≤ data.length →
      peekElems count (data.take k) offset = .ok total := by
  refine Rustis.peekElems.induct
    (fun data => ∀ m k, peekBytesNeeded data = .ok m → m ≤ k →
      k ≤ data.length → peekBytesNeeded (data.take k) = .ok m)
    (fun count data offset => ∀ total k,
      peekElems count data offset = .ok total → total ≤ k →
      k ≤ data.length → peekElems count (data.take k) offset = .ok total)
    ?_ ?_ ?_ ?_ ?_ ?_ ?_ ?_ ?_ ?_ ?_ ?_ ?_ ?_ ?_
  · intro m k h
    rw [peekBytesNeeded] at h
    exact absurd h (by simp)
  · intro b rest hb hfind m k h
    rw [peekBytesNeeded, if_pos hb, hfind] at h
    exact absurd h (by simp)
  · intro b rest hb he hfind m k h hk hkl
    rw [peekBytesNeeded, if_pos hb, hfind] at h
    injection h with hm
    subst hm
    rw [take_cons_of_pos b rest k (by omega), peekBytesNeeded, if_pos hb]
    have ht := findCrlf_take (b :: rest) he k hfind (by omega)
    rw [take_cons_of_pos b rest k (by omega)] at ht
    rw [ht]
  · intro rest hb m k h hk hkl
    rw [peekBytesNeeded_bulk_eq] at h
    obtain ⟨he, L, hfind, hparse, hcase⟩ := peekBulkStringSize_ok _ m h
    have hhe2k : he + 2 ≤ k := by
      rcases hcase with ⟨_, hm⟩ | ⟨_, hm⟩ <;> omega
    rw [take_cons_of_pos 36 rest k (by omega), peekBytesNeeded_bulk_eq]
    have ht := findCrlf_take (36 :: rest) he k hfind hhe2k
    rw [take_cons_of_pos 36 rest k (by omega)] at ht
    have hsl := header_slice_take (36 :: rest) he k (by omega)
    rw [take_cons_of_pos 36 rest k (by omega)] at hsl
    rw [peekBulkStringSize, ht]
    dsimp only
    rw [hsl, hparse]
    dsimp only
    rcases hcase with ⟨hL, hm⟩ | ⟨hL, hm⟩
    · rw [if_pos hL, hm]
    · rw [if_neg (by omega), hm]
  · intro rest h1 h2 hfind m k h
    rw [peekBytesNeeded, if_neg h1, if_neg h2, if_pos rfl, hfind] at h
    exact absurd h (by simp)
  · intro rest he e h1 h2 hfind hparse m k h
    rw [peekBytesNeeded, if_neg h1, if_neg h2, if_pos rfl, hfind] at h
    dsimp only at h
    rw [hparse] at h
    exact absurd h (by simp)
  · intro rest he L hL h1 h2 hfind hparse m k h hk hkl
    rw [peekBytesNeeded, if_neg h1, if_neg h2, if_pos rfl, hfind] at h
    dsimp only at h
    rw [hparse] at h
    dsimp only at h
    rw [if_pos hL] at h
    injection h with hm
    subst hm
    rw [take_cons_of_pos 42 rest k (by omega), peekBytesNeeded,
      if_neg h1, if_neg h2, if_pos rfl]
    have ht := findCrlf_take (42 :: rest) he k hfind (by omega)
    rw [take_cons_of_pos 42 rest k (by omega)] at ht
    rw [ht]
    have hsl := header_slice_take (42 :: rest) he k (by omega)
    rw [take_cons_of_pos 42 rest k (by omega)] at hsl
    dsimp only
    rw [hsl, hparse]
    dsimp only
    rw [if_pos hL]
  · intro rest he L hL h1 h2 hfind hparse ih m k h hk hkl
    rw [peekBytesNeeded, if_neg h1, if_neg h2, if_pos rfl, hfind] at h
    dsimp only at h
    rw [hparse] at h
    dsimp only at h
    rw [if_neg hL] at h
    have hhe2m : he + 2 ≤ m := peekElems_le _ _ _ _ h
    rw [take_cons_of_pos 42 rest k (by omega), peekBytesNeeded,
      if_neg h1, if_neg h2, if_pos rfl]
    have ht := findCrlf_take (42 :: rest) he k hfind (by omega)
    rw [take_cons_of_pos 42 rest k (by omega)] at ht
    rw [ht]
    have hsl := header_slice_take (42 :: rest) he k (by omega)
    rw [take_cons_of_pos 42 rest k (by omega)] at hsl
    dsimp only
    rw [hsl, hparse]
    dsimp only
    rw [if_neg hL]
    have := ih m k h hk hkl
    rw [take_cons_of_pos 42 rest k (by omega)] at this
    exact this
  · intro b rest h1 h2 h3 h4 hfind m k h
    rw [peekBytesNeeded, if_neg h1, if_neg h2, if_neg h3, if_pos h4,
      hfind] at h
    exact absurd h (by simp)
  · intro b rest h1 h2 h3 h4 he hfind m k h hk hkl
    rw [peekBytesNeeded, if_neg h1, if_neg h2, if_neg h3, if_pos h4,
      hfind] at h
    injection h with hm
    subst hm
    rw [take_cons_of_pos b rest k (by omega), peekBytesNeeded,
      if_neg h1, if_neg h2, if_neg h3, if_pos h4]
    have ht := findCrlf_take (b :: rest) he k hfind (by omega)
    rw [take_cons_of_pos b rest k (by omega)] at ht
    rw [ht]
  · intro b rest h1 h2 h3 h4 m k h
    rw [peekBytesNeeded_invalid b rest h1 h2 h3 h4] at h
    exact absurd h (by simp)
  · intro data offset total k h hk hkl
    rw [peekElems] at h
    injection h with ht
    subst ht
    rw [peekElems]
  · intro data offset c hg total k h
    rw [peekElems_unfold_succ, if_pos hg] at h
    exact absurd h (by simp)
  · intro data offset c hg e hpk ih1 total k h
    rw [peekElems_unfold_succ, if_neg hg, hpk] at h
    exact absurd h (by simp)
  · intro data offset c hg size hpk ih1 ih2 total k h hk hkl
    rw [peekElems_unfold_succ, if_neg hg, hpk] at h
    dsimp only at h
    have hsize2 := peekBytesNeeded_ok_ge_two _ _ hpk
    have hos := peekElems_le _ _ _ _ h
    rw [peekElems_unfold_succ]
    have hlt : (data.take k).length = k := by
      rw [List.length_take]
      omega
    rw [if_neg (by omega)]
    have hdt : (data.take k).drop offset = (data.drop offset).take (k - offset) :=
      List.drop_take k offset data
    rw [hdt]
    have hel := ih1 size (k - offset) hpk (by omega)
      (by rw [List.length_drop]; omega)
    rw [hel]
    dsimp only
    have := ih2 total k h hk hkl
    exact this

theorem peekBytesNeeded_take_stable (data : List Nat) (m k : Nat)
    (h : peekBytesNeeded data = .ok m) (hk : m ≤ k) (hkl : k ≤ data.length) :
    peekBytesNeeded (data.take k) = .ok m := by
  have hm2 := peekBytesNeeded_ok_ge_two data m h
  have hlen : 0 < data.length := by
    rcases data with _ | _
    · rw [peekBytesNeeded] at h
      exact absurd h (by simp)
    · simp
  have h1 : peekElems 1 data 0 = .ok m := by
    rw [peekElems_unfold_succ, if_neg (by omega), List.drop_zero, h]
    dsimp only
    rw [peekElems]
    simp
  have h2 := peekElems_take_stable 1 data 0 m k h1 hk hkl
  rw [peekElems_unfold_succ] at h2
  have hlk : (data.take k).length = k := by
    rw [List.length_take]
    omega
  rw [if_neg (by omega), List.drop_zero] at h2
  rcases hpk : peekBytesNeeded (data.take k) with e | size
  · rw [hpk] at h2
    exact absurd h2 (by simp)
  · rw [hpk] at h2
    dsimp only at h2
    rw [peekElems] at h2
    injection h2 with hh
    congr 1
    omega

theorem parseSimpleStringFrame_spec (frame : List Nat) (offset he : Nat)
    (hfind : findCrlf (frame.drop offset) = some he) (hhe : 1 ≤ he)
    (hlen : offset + he + 2 ≤ frame.length) :
    parseSimpleStringFrame frame offset
      = .ok (.simpleString ((frame.drop (offset + 1)).take (he - 1)), he + 2) := by
  rw [parseSimpleStringFrame, hfind]
  dsimp only
  rw [listSlice_eq_some frame (offset + 1) (offset + he) (by omega) (by omega)]
  have hsub : offset + he - (offset + 1) = he - 1 := by omega
  rw [hsub]

theorem parseSimpleErrorFrame_spec (frame : List Nat) (offset he : Nat)
    (hfind : findCrlf (frame.drop offset) = some he) (hhe : 1 ≤ he)
    (hlen : offset + he + 2 ≤ frame.length) :
    parseSimpleErrorFrame frame offset
      = .ok (.error ((frame.drop (offset + 1)).take (he - 1)), he + 2) := by
  rw [parseSimpleErrorFrame, hfind]
  dsimp only
  rw [listSlice_eq_some frame (offset + 1) (offset + he) (by omega) (by omega)]
  have hsub : offset + he - (offset + 1) = he - 1 := by omega
  rw [hsub]

theorem parseI64_error_ne_oob (bs : List Nat) (e : BufParseError)
    (h : parseI64 bs = .error e) : e ≠ .indexOutOfBounds := by
  rw [parseI64] at h
  by_cases hu : utf8Valid bs = true
  · rw [if_pos hu] at h
    rcases hI : intFromDecimalBytes bs with _ | v
    · rw [hI] at h
      injection h with he2
      rw [← he2]
      simp
    · rw [hI] at h
      exact absurd h (by simp)
  · rw [if_neg hu] at h
    injection h with he2
    rw [← he2]
    simp

theorem parseIntegerFrame_spec (frame : List Nat) (offset he : Nat)
    (hfind : findCrlf (frame.drop offset) = some he) (hhe : 1 ≤ he) :
    (∃ v, parseIntegerFrame frame offset = .ok (v, he + 2))
    ∨ (∃ e, parseIntegerFrame frame offset = .error e
        ∧ e ≠ .indexOutOfBounds) := by
  have hb := findCrlf_bound _ _ hfind
  rw [parseIntegerFrame]
  rw [hfind]
  dsimp only
  rw [listSlice_eq_some (frame.drop offset) 1 he (by omega) (by omega)]
  dsimp only
  rcases hparse : parseI64 (((frame.drop offset).drop 1).take (he - 1)) with e | n
  · exact Or.inr ⟨e, rfl, parseI64_error_ne_oob _ _ hparse⟩
  · exact Or.inl ⟨.integer n, rfl⟩

theorem parseInlineFrame_spec (frame : List Nat) (offset he : Nat)
    (hfind : findCrlf (frame.drop offset) = some he) :
    parseInlineFrame frame offset
      = .ok (.array (some ((splitWords ((frame.drop offset).take he)).map
          (fun w => ResponseValue.bulkString (some w)))), he + 2) := by
  rw [parseInlineFrame]
  dsimp only
  rw [hfind]

theorem parseBulkStringFrame_neg_spec (frame : List Nat) (offset he : Nat)
    (L : Int)
    (hfind : findCrlf (frame.drop offset) = some he) (hhe : 1 ≤ he)
    (hparse : parseI64 (((frame.drop offset).drop 1).take (he - 1)) = .ok L)
    (hL : L < 0) :
    parseBulkStringFrame frame offset = .ok (.bulkString none, he + 2) := by
  have hb := findCrlf_bound _ _ hfind
  rw [parseBulkStringFrame]
  rw [hfind]
  dsimp only
  rw [listSlice_eq_some (frame.drop offset) 1 he (by omega) (by omega)]
  dsimp only
  rw [hparse]
  dsimp only
  rw [if_pos hL]

theorem parseBulkStringFrame_pos_spec (frame : List Nat) (offset he : Nat)
    (L : Int)
    (hfind : findCrlf (frame.drop offset) = some he) (hhe : 1 ≤ he)
    (hparse : parseI64 (((frame.drop offset).drop 1).take (he - 1)) = .ok L)
    (hL : ¬ L < 0)
    (hlen : offset + (he + 2 + L.toNat + 2) ≤ frame.length) :
    (∃ v, parseBulkStringFrame frame offset = .ok (v, he + 2 + L.toNat + 2))
    ∨ (∃ e, parseBulkStringFrame frame offset = .error e
        ∧ e ≠ .indexOutOfBounds) := by
  have hb := findCrlf_bound _ _ hfind
  rw [parseBulkStringFrame]
  rw [hfind]
  dsimp only
  rw [listSlice_eq_some (frame.drop offset) 1 he (by omega) (by omega)]
  dsimp only
  rw [hparse]
  dsimp only
  rw [if_neg hL]
  have hd1 : offset + he + 2 + L.toNat < frame.length := by omega
  rcases hb1 : frame[offset + he + 2 + L.toNat]? with _ | b1
  · rw [List.getElem?_eq_none_iff] at hb1
    omega
  · dsimp only
    by_cases h13 : b1 = 13
    · rw [if_neg (by simpa using h13)]
      rcases hb2 : frame[offset + he + 2 + L.toNat + 1]? with _ | b2
      · rw [List.getElem?_eq_none_iff] at hb2
        omega
      · dsimp only
        by_cases h10 : b2 = 10
        · rw [if_neg (by simpa using h10)]
          rw [listSlice_eq_some frame (offset + he + 2)
            (offset + he + 2 + L.toNat) (by omega) (by omega)]
          exact Or.inl ⟨_, rfl⟩
        · rw [if_pos (by simpa using h10)]
          exact Or.inr ⟨_, rfl, by simp⟩
    · rw [if_pos (by simpa using h13)]
      exact Or.inr ⟨_, rfl, by simp⟩

theorem parseElemsFrom_zero (frame : List Nat) (offset : Nat) :
    parseElemsFrom frame offset 0 = .ok ([], 0) := by
  rw [parseElemsFrom]

theorem parseElemsFrom_unfold_succ (frame : List Nat) (offset c : Nat) :
    parseElemsFrom frame offset (c + 1)
      = match parseValueFrom frame offset with
        | .error e => .error e
        | .ok (v, consumed) =>
          match parseElemsFrom frame (offset + consumed) c with
          | .error e => .error e
          | .ok (vs, rest) => .ok (v :: vs, consumed + rest) := by
  rw [parseElemsFrom]

theorem parseValueFrom_dispatch (frame : List Nat) (offset : Nat)
    (b : Nat) (tail : List Nat)
    (hno : ¬ frame.length < offset) (hd : frame.drop offset = b :: tail) :
    parseValueFrom frame offset
      = (if b = 43 then parseSimpleStringFrame frame offset
        else if b = 45 then parseSimpleErrorFrame frame offset
        else if b = 58 then parseIntegerFrame frame offset
        else if b = 36 then parseBulkStringFrame frame offset
        else if b = 42 then
          match findCrlf (frame.drop offset) with
          | none => .error .Incomplete
          | some he =>
            match parseI64 (((frame.drop offset).drop 1).take (he - 1)) with
            | .error e => .error e
            | .ok length =>
              if length < 0 then .ok (.array none, he + 2)
              else
                match parseElemsFrom frame (offset + he + 2) length.toNat with
                | .error e => .error e
                | .ok (items, consumed) =>
                  .ok (.array (some items), he + 2 + consumed)
        else if isAsciiAlphabetic b then parseInlineFrame frame offset
        else .error (.InvalidFirstByte (some b))) := by
  rw [parseValueFrom, if_neg hno]
  split
  · rename_i heq
    rw [hd] at heq
    exact absurd heq (by simp)
  · rename_i b2 tail2 heq
    rw [hd] at heq
    injection heq with hb2 htl2
    subst hb2
    rfl

/-! C1 development: decimal digit facts. -/

theorem digitsVal_append (xs : List Nat) (d : Nat) :
    digitsVal (xs ++ [d]) = digitsVal xs * 10 + (d - 48) := by
  simp [digitsVal, List.foldl_append]

theorem natDecimal_spec : ∀ (n : Nat),
    natDecimal n ≠ [] ∧ (∀ b ∈ natDecimal n, 48 ≤ b ∧ b ≤ 57)
      ∧ digitsVal (natDecimal n) = n := by
  refine natDecimal.induct (fun n => natDecimal n ≠ []
    ∧ (∀ b ∈ natDecimal n, 48 ≤ b ∧ b ≤ 57)
    ∧ digitsVal (natDecimal n) = n) ?_ ?_
  · intro n hn
    rw [natDecimal, dif_pos hn]
    refine ⟨by simp, ?_, ?_⟩
    · intro b hb
      simp only [List.mem_singleton] at hb
      omega
    · simp [digitsVal]
  · intro n hn ih
    obtain ⟨ihne, ihmem, ihval⟩ := ih
    rw [natDecimal, dif_neg hn]
    refine ⟨by simp [ihne], ?_, ?_⟩
    · intro b hb
      rw [List.mem_append] at hb
      rcases hb with hb | hb
      · exact ihmem b hb
      · simp only [List.mem_singleton] at hb
        have := Nat.mod_lt n (show 0 < 10 by omega)
        omega
    · rw [digitsVal_append, ihval]
      have := Nat.div_add_mod n 10
      omega

theorem intDecimal_mem (i : Int) (b : Nat) (hb : b ∈ intDecimal i) :
    b = 45 ∨ (48 ≤ b ∧ b ≤ 57) := by
  rw [intDecimal] at hb
  by_cases hneg : i < 0
  · rw [if_pos hneg] at hb
    simp only [List.mem_cons] at hb
    rcases hb with rfl | hb
    · exact Or.inl rfl
    · exact Or.inr ((natDecimal_spec i.natAbs).2.1 b hb)
  · rw [if_neg hneg] at hb
    exact Or.inr ((natDecimal_spec i.toNat).2.1 b hb)

theorem utf8Valid_ascii : ∀ (bs : List Nat), (∀ b ∈ bs, b < 128) →
    utf8Valid bs = true := by
  intro bs
  induction bs with
  | nil => intro h; rfl
  | cons b rest ih =>
    intro h
    rw [utf8Valid, utf8ValidGo]
    rw [if_pos (by exact h b (by simp))]
    exact ih (fun c hc => h c (by simp [hc]))

theorem intFromDecimalBytes_digits (d : Nat) (ds : List Nat)
    (h43 : d ≠ 43) (h45 : d ≠ 45)
    (hall : (d :: ds).all isDigit = true)
    (hhi : (digitsVal (d :: ds) : Int) ≤ i64Max) :
    intFromDecimalBytes (d :: ds) = some ((digitsVal (d :: ds) : Int)) := by
  rw [intFromDecimalBytes]
  · dsimp only
    rw [if_neg (by simp), if_neg (by simp [hall]), if_neg ?_]
    · rw [one_mul]
    · have h0 : (0 : Int) ≤ (digitsVal (d :: ds) : Int) := Int.natCast_nonneg _
      simp only [i64Min, i64Max] at hhi ⊢
      push_neg
      omega
  · intro rest heq
    injection heq with h1 h2
    exact h43 h1
  · intro rest heq
    injection heq with h1 h2
    exact h45 h1

theorem intFromDecimalBytes_negDigits (ds : List Nat)
    (hne : ds ≠ []) (hall : ds.all isDigit = true)
    (hlo : i64Min ≤ -(digitsVal ds : Int)) :
    intFromDecimalBytes (45 :: ds) = some (-(digitsVal ds : Int)) := by
  rw [intFromDecimalBytes]
  dsimp only
  rw [if_neg hne, if_neg (by simp [hall]), if_neg ?_]
  · rw [neg_one_mul]
  · have h0 : (0 : Int) ≤ (digitsVal ds : Int) := Int.natCast_nonneg _
    simp only [i64Min, i64Max] at hlo ⊢
    push_neg
    omega

theorem parseI64_natDecimal (n : Nat) (h : (n : Int) ≤ i64Max) :
    parseI64 (natDecimal n) = .ok (n : Int) := by
  obtain ⟨hne, hmem, hval⟩ := natDecimal_spec n
  rw [parseI64]
  rw [if_pos (utf8Valid_ascii _ (fun b hb => by have := hmem b hb; omega))]
  rcases hd : natDecimal n with _ | ⟨d, ds⟩
  · exact absurd hd hne
  · rw [hd] at hmem hval
    have hdm := hmem d (by simp)
    rw [intFromDecimalBytes_digits d ds (by omega) (by omega)
      (by rw [List.all_eq_true]
          intro b hb
          have := hmem b hb
          simp only [isDigit, decide_eq_true_eq]
          omega)
      (by rw [hval]; exact h)]
    dsimp only
    rw [hval]

theorem parseI64_intDecimal (i : Int) (h1 : i64Min ≤ i) (h2 : i ≤ i64Max) :
    parseI64 (intDecimal i) = .ok i := by
  rw [intDecimal]
  by_cases hneg : i < 0
  · rw [if_pos hneg]
    obtain ⟨hne, hmem, hval⟩ := natDecimal_spec i.natAbs
    rw [parseI64]
    rw [if_pos (utf8Valid_ascii _ (fun b hb => by
      rcases List.mem_cons.mp hb with rfl | hb
      · omega
      · have := hmem b hb
        omega))]
    rw [intFromDecimalBytes_negDigits (natDecimal i.natAbs) hne
      (by rw [List.all_eq_true]
          intro b hb
          have := hmem b hb
          simp only [isDigit, decide_eq_true_eq]
          omega)
      (by rw [hval]; simp only [i64Min] at h1 ⊢; omega)]
    dsimp only
    rw [hval]
    have hrepr : -((i.natAbs : Nat) : Int) = i := by omega
    rw [hrepr]
  · rw [if_neg hneg]
    have hq := parseI64_natDecimal i.toNat (by omega)
    rw [hq]
    have : ((i.toNat : Nat) : Int) = i := by omega
    rw [this]

theorem findCrlf_no13 : ∀ (pre : List Nat), (∀ b ∈ pre, b ≠ 13) →
    ∀ (rest : List Nat), findCrlf (pre ++ 13 :: 10 :: rest) = some pre.length := by
  intro pre
  induction pre with
  | nil =>
    intro h rest
    rw [List.nil_append, findCrlf]
    rw [if_pos ⟨rfl, by simp⟩]
    rfl
  | cons b pre2 ih =>
    intro h rest
    rw [List.cons_append, findCrlf]
    rw [if_neg (fun hc => h b (by simp) hc.1)]
    rw [ih (fun c hc => h c (by simp [hc])) rest]
    rfl

theorem getElem?_append_head (xs : List Nat) (y : Nat) (ys : List Nat) :
    (xs ++ y :: ys)[xs.length]? = some y := by
  rw [List.getElem?_append_right (Nat.le_refl _)]
  simp

theorem getElem?_append_second (xs : List Nat) (y z : Nat) (ys : List Nat) :
    (xs ++ y :: z :: ys)[xs.length + 1]? = some z := by
  have h : xs ++ y :: z :: ys = (xs ++ [y]) ++ z :: ys := by simp
  have h2 : xs.length + 1 = (xs ++ [y]).length := by simp
  rw [h, h2, getElem?_append_head]

theorem serializeRV_ne_nil (v : ResponseValue) : serializeRV v ≠ [] := by
  rcases v with s | s | i | (_ | d) | (_ | items) <;> rw [serializeRV] <;> simp

theorem natDecimal_ne13 (n : Nat) (b : Nat) (hb : b ∈ natDecimal n) :
    b ≠ 13 := by
  have := (natDecimal_spec n).2.1 b hb
  omega

/-- The read-only peek pass measures a serialized well-formed value exactly:
on any buffer beginning with the wire bytes of v it reports the length of
those bytes. -/
theorem peekBytesNeeded_serialize : ∀ (v : ResponseValue),
    wellFormedRV v = true → ∀ (post : List Nat),
      peekBytesNeeded (serializeRV v ++ post) = .ok (serializeRV v).length := by
  refine serializeRV.induct
    (fun v => wellFormedRV v = true → ∀ (post : List Nat),
      peekBytesNeeded (serializeRV v ++ post) = .ok (serializeRV v).length)
    (fun items => wellFormedList items = true →
      ∀ (data : List Nat) (offset : Nat) (post : List Nat),
        data.drop offset = serializeList items ++ post →
        peekElems items.length data offset
          = .ok (offset + (serializeList items).length))
    ?_ ?_ ?_ ?_ ?_ ?_ ?_ ?_ ?_
  · -- simpleString
    intro s hwf post
    rw [wellFormedRV] at hwf
    have hmem : ∀ b ∈ s, b ≠ 13 := by
      intro b hb
      have := of_decide_eq_true (List.all_eq_true.mp hwf b hb)
      exact this.2.1
    rw [serializeRV]
    rw [show (43 :: (s ++ [13, 10])) ++ post = 43 :: (s ++ 13 :: 10 :: post)
      from by simp]
    rw [peekBytesNeeded, if_pos (Or.inl rfl)]
    have hf : findCrlf (43 :: (s ++ 13 :: 10 :: post)) = some (s.length + 1) := by
      have := findCrlf_no13 (43 :: s)
        (by intro b hb
            rcases List.mem_cons.mp hb with rfl | hb
            · omega
            · exact hmem b hb) post
      simpa using this
    rw [hf]
    dsimp only
    congr 1
    simp only [List.length_cons, List.length_append, List.length_nil]
  · -- error
    intro s hwf post
    rw [wellFormedRV] at hwf
    have hmem : ∀ b ∈ s, b ≠ 13 := by
      intro b hb
      have := of_decide_eq_true (List.all_eq_true.mp hwf b hb)
      exact this.2.1
    rw [serializeRV]
    rw [show (45 :: (s ++ [13, 10])) ++ post = 45 :: (s ++ 13 :: 10 :: post)
      from by simp]
    rw [peekBytesNeeded, if_pos (Or.inr (Or.inl rfl))]
    have hf : findCrlf (45 :: (s ++ 13 :: 10 :: post)) = some (s.length + 1) := by
      have := findCrlf_no13 (45 :: s)
        (by intro b hb
            rcases List.mem_cons.mp hb with rfl | hb
            · omega
            · exact hmem b hb) post
      simpa using this
    rw [hf]
    dsimp only
    congr 1
    simp only [List.length_cons, List.length_append, List.length_nil]
  · -- integer
    intro i hwf post
    rw [serializeRV]
    rw [show (58 :: (intDecimal i ++ [13, 10])) ++ post
        = 58 :: (intDecimal i ++ 13 :: 10 :: post) from by simp]
    rw [peekBytesNeeded, if_pos (Or.inr (Or.inr rfl))]
    have hf : findCrlf (58 :: (intDecimal i ++ 13 :: 10 :: post))
        = some ((intDecimal i).length + 1) := by
      have := findCrlf_no13 (58 :: intDecimal i)
        (by intro b hb
            rcases List.mem_cons.mp hb with rfl | hb
            · omega
            · rcases intDecimal_mem i b hb with rfl | hr
              · omega
              · omega) post
      simpa using this
    rw [hf]
    dsimp only
    congr 1
    simp only [List.length_cons, List.length_append, List.length_nil]
  · -- bulkString none
    intro hwf post
    rw [serializeRV]
    rw [show ([36, 45, 49, 13, 10] : List Nat) ++ post
        = 36 :: 45 :: 49 :: 13 :: 10 :: post from by simp]
    rw [peekBytesNeeded, if_neg (by decide), if_pos rfl]
    rw [peekBulkStringSize]
    have hf : findCrlf (36 :: 45 :: 49 :: 13 :: 10 :: post) = some 3 := by
      have := findCrlf_no13 [36, 45, 49] (by decide) post
      simpa using this
    rw [hf]
    dsimp only
    have hsl : ((36 :: 45 :: 49 :: 13 :: 10 :: post).drop 1).take (3 - 1)
        = [45, 49] := by
      simp
    rw [hsl]
    rw [show parseI64 [45, 49] = .ok (-1) from rfl]
    dsimp only
    rw [if_pos (by decide)]
    rfl
  · -- bulkString some
    intro d hwf post
    rw [wellFormedRV] at hwf
    rw [Bool.and_eq_true] at hwf
    have hdlen : ((d.length : Int)) ≤ i64Max := of_decide_eq_true hwf.2
    rw [serializeRV]
    rw [show (36 :: (natDecimal d.length ++ [13, 10] ++ d ++ [13, 10])) ++ post
        = 36 :: (natDecimal d.length ++ 13 :: 10 :: (d ++ 13 :: 10 :: post))
        from by simp]
    rw [peekBytesNeeded, if_neg (by decide), if_pos rfl]
    rw [peekBulkStringSize]
    have hf : findCrlf
        (36 :: (natDecimal d.length ++ 13 :: 10 :: (d ++ 13 :: 10 :: post)))
        = some ((natDecimal d.length).length + 1) := by
      have := findCrlf_no13 (36 :: natDecimal d.length)
        (by intro b hb
            rcases List.mem_cons.mp hb with rfl | hb
            · omega
            · exact natDecimal_ne13 _ b hb) (d ++ 13 :: 10 :: post)
      simpa using this
    rw [hf]
    dsimp only
    have hsl : ((36 :: (natDecimal d.length ++ 13 :: 10 :: (d ++ 13 :: 10 :: post))).drop 1).take
          ((natDecimal d.length).length + 1 - 1)
        = natDecimal d.length := by
      rw [Nat.add_sub_cancel]
      rw [show ((36 :: (natDecimal d.length ++ 13 :: 10 :: (d ++ 13 :: 10 :: post))).drop 1)
          = natDecimal d.length ++ 13 :: 10 :: (d ++ 13 :: 10 :: post) from rfl]
      exact List.take_left _ _
    rw [hsl, parseI64_natDecimal d.length hdlen]
    dsimp only
    rw [if_neg (by omega)]
    congr 1
    simp only [List.length_cons, List.length_append, List.length_nil, Int.toNat_natCast]
    omega
  · -- array none
    intro hwf post
    rw [serializeRV]
    rw [show ([42, 45, 49, 13, 10] : List Nat) ++ post
        = 42 :: 45 :: 49 :: 13 :: 10 :: post from by simp]
    rw [peekBytesNeeded, if_neg (by decide), if_neg (by decide), if_pos rfl]
    have hf : findCrlf (42 :: 45 :: 49 :: 13 :: 10 :: post) = some 3 := by
      have := findCrlf_no13 [42, 45, 49] (by decide) post
      simpa using this
    rw [hf]
    dsimp only
    have hsl : ((42 :: 45 :: 49 :: 13 :: 10 :: post).drop 1).take (3 - 1)
        = [45, 49] := by
      simp
    rw [hsl]
    rw [show parseI64 [45, 49] = .ok (-1) from rfl]
    dsimp only
    rw [if_pos (by decide)]
    rfl
  · -- array some
    intro items ih hwf post
    rw [wellFormedRV] at hwf
    rw [Bool.and_eq_true] at hwf
    have hil : ((items.length : Int)) ≤ i64Max := of_decide_eq_true hwf.1
    rw [serializeRV]
    rw [show (42 :: (natDecimal items.length ++ [13, 10] ++ serializeList items)) ++ post
        = 42 :: (natDecimal items.length ++ 13 :: 10 :: (serializeList items ++ post))
        from by simp]
    rw [peekBytesNeeded, if_neg (by decide), if_neg (by decide), if_pos rfl]
    have hf : findCrlf
        (42 :: (natDecimal items.length ++ 13 :: 10 :: (serializeList items ++ post)))
        = some ((natDecimal items.length).length + 1) := by
      have := findCrlf_no13 (42 :: natDecimal items.length)
        (by intro b hb
            rcases List.mem_cons.mp hb with rfl | hb
            · omega
            · exact natDecimal_ne13 _ b hb) (serializeList items ++ post)
      simpa using this
    rw [hf]
    dsimp only
    have hsl : ((42 :: (natDecimal items.length ++ 13 :: 10 :: (serializeList items ++ post))).drop 1).take
          ((natDecimal items.length).length + 1 - 1)
        = natDecimal items.length := by
      rw [Nat.add_sub_cancel]
      rw [show ((42 :: (natDecimal items.length ++ 13 :: 10 :: (serializeList items ++ post))).drop 1)
          = natDecimal items.length ++ 13 :: 10 :: (serializeList items ++ post) from rfl]
      exact List.take_left _ _
    rw [hsl, parseI64_natDecimal items.length hil]
    dsimp only
    rw [if_neg (by omega)]
    have hdrop : (42 :: (natDecimal items.length ++ 13 :: 10 :: (serializeList items ++ post))).drop
          ((natDecimal items.length).length + 1 + 2)
        = serializeList items ++ post := by
      rw [show (42 :: (natDecimal items.length ++ 13 :: 10 :: (serializeList items ++ post)))
          = (42 :: (natDecimal items.length ++ [13, 10])) ++ (serializeList items ++ post)
          from by simp]
      rw [show (natDecimal items.length).length + 1 + 2
          = (42 :: (natDecimal items.length ++ [13, 10])).length from by simp]
      exact List.drop_left _ _
    have hpe := ih hwf.2
      (42 :: (natDecimal items.length ++ 13 :: 10 :: (serializeList items ++ post)))
      ((natDecimal items.length).length + 1 + 2) post hdrop
    rw [show ((items.length : Int)).toNat = items.length from by omega]
    rw [hpe]
    congr 1
    simp only [List.length_cons, List.length_append, List.length_nil]
    omega
  · -- list nil
    intro hwfl data offset post hdrop
    rw [List.length_nil, peekElems]
    rw [serializeList, List.length_nil]
    rfl
  · -- list cons
    intro v vs ih1 ih2 hwfl data offset post hdrop
    rw [wellFormedList, Bool.and_eq_true] at hwfl
    rw [serializeList] at hdrop ⊢
    have hne := serializeRV_ne_nil v
    have hlen1 : ¬ data.length ≤ offset := by
      intro hc
      rw [List.drop_eq_nil_of_le hc] at hdrop
      rcases List.append_eq_nil.mp hdrop.symm with ⟨h1, h2⟩
      rcases List.append_eq_nil.mp h1 with ⟨h3, h4⟩
      exact hne h3
    rw [List.length_cons, peekElems_unfold_succ, if_neg hlen1]
    have hpeek1 : peekBytesNeeded (data.drop offset) = .ok (serializeRV v).length := by
      rw [hdrop, List.append_assoc]
      exact ih1 hwfl.1 (serializeList vs ++ post)
    rw [hpeek1]
    dsimp only
    have hdrop2 : data.drop (offset + (serializeRV v).length)
        = serializeList vs ++ post := by
      have h1 : data.drop (offset + (serializeRV v).length)
          = (data.drop offset).drop (serializeRV v).length := by
        rw [List.drop_drop]
      rw [h1, hdrop, List.append_assoc, List.drop_left]
    have := ih2 hwfl.2 data (offset + (serializeRV v).length) post hdrop2
    rw [this]
    congr 1
    simp only [List.length_append]
    omega

theorem drop_eq_append_length (frame : List Nat) (offset : Nat)
    (sv post : List Nat)
    (h : frame.drop offset = sv ++ post) (hne : sv ≠ []) :
    offset < frame.length
      ∧ frame.length = offset + sv.length + post.length := by
  have hl := congrArg List.length h
  simp only [List.length_drop, List.length_append] at hl
  have hlt : offset < frame.length := by
    by_contra hc
    rw [List.drop_eq_nil_of_le (by omega)] at h
    rcases List.append_eq_nil.mp h.symm with ⟨h1, h2⟩
    exact hne h1
  exact ⟨hlt, by omega⟩

/-- The commit-phase re-parse recovers a serialized well-formed value
exactly: at any offset where the detached frame continues with the wire
bytes of v, parsing yields v back and consumes exactly those bytes. -/
theorem parseValueFrom_serialize : ∀ (v : ResponseValue),
    wellFormedRV v = true →
    ∀ (frame : List Nat) (offset : Nat) (post : List Nat),
      frame.drop offset = serializeRV v ++ post →
      parseValueFrom frame offset = .ok (v, (serializeRV v).length) := by
  refine serializeRV.induct
    (fun v => wellFormedRV v = true →
      ∀ (frame : List Nat) (offset : Nat) (post : List Nat),
        frame.drop offset = serializeRV v ++ post →
        parseValueFrom frame offset = .ok (v, (serializeRV v).length))
    (fun items => wellFormedList items = true →
      ∀ (frame : List Nat) (offset : Nat) (post : List Nat),
        frame.drop offset = serializeList items ++ post →
        parseElemsFrom frame offset items.length
          = .ok (items, (serializeList items).length))
    ?_ ?_ ?_ ?_ ?_ ?_ ?_ ?_ ?_
  · -- simpleString
    intro s hwf frame offset post hdrop
    rw [wellFormedRV] at hwf
    have hmem : ∀ b ∈ s, b ≠ 13 := by
      intro b hb
      exact (of_decide_eq_true (List.all_eq_true.mp hwf b hb)).2.1
    rw [serializeRV] at hdrop ⊢
    have hns := drop_eq_append_length frame offset _ post hdrop (by simp)
    rw [show (43 :: (s ++ [13, 10])) ++ post = 43 :: (s ++ 13 :: 10 :: post)
      from by simp] at hdrop
    rw [parseValueFrom_dispatch frame offset 43 (s ++ 13 :: 10 :: post)
      (by omega) hdrop]
    rw [if_pos rfl]
    have hfind : findCrlf (frame.drop offset) = some (s.length + 1) := by
      rw [hdrop]
      have := findCrlf_no13 (43 :: s)
        (by intro b hb
            rcases List.mem_cons.mp hb with rfl | hb
            · omega
            · exact hmem b hb) post
      simpa using this
    rw [parseSimpleStringFrame_spec frame offset (s.length + 1) hfind
      (by omega)
      (by have := hns.2
          simp only [List.length_cons, List.length_append, List.length_nil]
            at this
          try omega)]
    have htail : frame.drop (offset + 1) = s ++ 13 :: 10 :: post := by
      have h1 : (frame.drop offset).drop 1 = frame.drop (offset + 1) := by
        rw [List.drop_drop]
      rw [← h1, hdrop]
      rfl
    rw [Nat.add_sub_cancel, htail, List.take_left]
    exact congrArg Except.ok (congrArg (Prod.mk _)
      (by simp only [List.length_cons, List.length_append, List.length_nil]
          try omega))
  · -- error
    intro s hwf frame offset post hdrop
    rw [wellFormedRV] at hwf
    have hmem : ∀ b ∈ s, b ≠ 13 := by
      intro b hb
      exact (of_decide_eq_true (List.all_eq_true.mp hwf b hb)).2.1
    rw [serializeRV] at hdrop ⊢
    have hns := drop_eq_append_length frame offset _ post hdrop (by simp)
    rw [show (45 :: (s ++ [13, 10])) ++ post = 45 :: (s ++ 13 :: 10 :: post)
      from by simp] at hdrop
    rw [parseValueFrom_dispatch frame offset 45 (s ++ 13 :: 10 :: post)
      (by omega) hdrop]
    rw [if_neg (by decide), if_pos rfl]
    have hfind : findCrlf (frame.drop offset) = some (s.length + 1) := by
      rw [hdrop]
      have := findCrlf_no13 (45 :: s)
        (by intro b hb
            rcases List.mem_cons.mp hb with rfl | hb
            · omega
            · exact hmem b hb) post
      simpa using this
    rw [parseSimpleErrorFrame_spec frame offset (s.length + 1) hfind
      (by omega)
      (by have := hns.2
          simp only [List.length_cons, List.length_append, List.length_nil]
            at this
          try omega)]
    have htail : frame.drop (offset + 1) = s ++ 13 :: 10 :: post := by
      have h1 : (frame.drop offset).drop 1 = frame.drop (offset + 1) := by
        rw [List.drop_drop]
      rw [← h1, hdrop]
      rfl
    rw [Nat.add_sub_cancel, htail, List.take_left]
    exact congrArg Except.ok (congrArg (Prod.mk _)
      (by simp only [List.length_cons, List.length_append, List.length_nil]
          try omega))
  · -- integer
    intro i hwf frame offset post hdrop
    rw [wellFormedRV] at hwf
    have hrange := of_decide_eq_true hwf
    rw [serializeRV] at hdrop ⊢
    have hns := drop_eq_append_length frame offset _ post hdrop (by simp)
    rw [show (58 :: (intDecimal i ++ [13, 10])) ++ post
        = 58 :: (intDecimal i ++ 13 :: 10 :: post) from by simp] at hdrop
    rw [parseValueFrom_dispatch frame offset 58 (intDecimal i ++ 13 :: 10 :: post)
      (by omega) hdrop]
    rw [if_neg (by decide), if_neg (by decide), if_pos rfl]
    rw [parseIntegerFrame]
    have hfind : findCrlf (frame.drop offset)
        = some ((intDecimal i).length + 1) := by
      rw [hdrop]
      have := findCrlf_no13 (58 :: intDecimal i)
        (by intro b hb
            rcases List.mem_cons.mp hb with rfl | hb
            · omega
            · rcases intDecimal_mem i b hb with rfl | hr
              · omega
              · omega) post
      simpa using this
    rw [hfind]
    dsimp only
    rw [listSlice_eq_some (frame.drop offset) 1 ((intDecimal i).length + 1)
      (by omega)
      (by rw [hdrop]
          simp only [List.length_cons, List.length_append, List.length_nil]
          try omega)]
    dsimp only
    have hsl : ((frame.drop offset).drop 1).take ((intDecimal i).length + 1 - 1)
        = intDecimal i := by
      rw [hdrop, Nat.add_sub_cancel]
      rw [show ((58 :: (intDecimal i ++ 13 :: 10 :: post)).drop 1)
          = intDecimal i ++ 13 :: 10 :: post from rfl]
      exact List.take_left _ _
    rw [hsl, parseI64_intDecimal i hrange.1 hrange.2]
    dsimp only
    exact congrArg Except.ok (congrArg (Prod.mk _)
      (by simp only [List.length_cons, List.length_append, List.length_nil]
          try omega))
  · -- bulkString none
    intro hwf frame offset post hdrop
    rw [serializeRV] at hdrop ⊢
    have hns := drop_eq_append_length frame offset _ post hdrop (by simp)
    rw [show ([36, 45, 49, 13, 10] : List Nat) ++ post
        = 36 :: 45 :: 49 :: 13 :: 10 :: post from by simp] at hdrop
    rw [parseValueFrom_dispatch frame offset 36 (45 :: 49 :: 13 :: 10 :: post)
      (by omega) hdrop]
    rw [if_neg (by decide), if_neg (by decide), if_neg (by decide), if_pos rfl]
    have hfind : findCrlf (frame.drop offset) = some 3 := by
      rw [hdrop]
      have := findCrlf_no13 [36, 45, 49] (by decide) post
      simpa using this
    have hparse : parseI64 (((frame.drop offset).drop 1).take (3 - 1))
        = .ok (-1) := by
      rw [hdrop]
      rw [show (((36 :: 45 :: 49 :: 13 :: 10 :: post).drop 1).take (3 - 1))
          = [45, 49] from by simp]
      rfl
    rw [parseBulkStringFrame_neg_spec frame offset 3 (-1) hfind (by omega)
      hparse (by decide)]
    rfl
  · -- bulkString some
    intro d hwf frame offset post hdrop
    rw [wellFormedRV, Bool.and_eq_true] at hwf
    have hdlen : ((d.length : Int)) ≤ i64Max := of_decide_eq_true hwf.2
    rw [serializeRV] at hdrop ⊢
    have hns := drop_eq_append_length frame offset _ post hdrop (by simp)
    have hsv2 : (36 :: (natDecimal d.length ++ [13, 10] ++ d ++ [13, 10])).length
        = (natDecimal d.length).length + d.length + 5 := by
      simp only [List.length_cons, List.length_append, List.length_nil]
      try omega
    rw [show (36 :: (natDecimal d.length ++ [13, 10] ++ d ++ [13, 10])) ++ post
        = 36 :: (natDecimal d.length ++ 13 :: 10 :: (d ++ 13 :: 10 :: post))
        from by simp] at hdrop
    rw [parseValueFrom_dispatch frame offset 36
      (natDecimal d.length ++ 13 :: 10 :: (d ++ 13 :: 10 :: post))
      (by omega) hdrop]
    rw [if_neg (by decide), if_neg (by decide), if_neg (by decide), if_pos rfl]
    rw [parseBulkStringFrame]
    have hfind : findCrlf (frame.drop offset)
        = some ((natDecimal d.length).length + 1) := by
      rw [hdrop]
      have := findCrlf_no13 (36 :: natDecimal d.length)
        (by intro b hb
            rcases List.mem_cons.mp hb with rfl | hb
            · omega
            · exact natDecimal_ne13 _ b hb) (d ++ 13 :: 10 :: post)
      simpa using this
    rw [hfind]
    dsimp only
    rw [listSlice_eq_some (frame.drop offset) 1
      ((natDecimal d.length).length + 1) (by omega)
      (by rw [hdrop]
          simp only [List.length_cons, List.length_append, List.length_nil]
          try omega)]
    dsimp only
    have hsl : ((frame.drop offset).drop 1).take
        ((natDecimal d.length).length + 1 - 1) = natDecimal d.length := by
      rw [hdrop, Nat.add_sub_cancel]
      rw [show ((36 :: (natDecimal d.length ++ 13 :: 10 ::
            (d ++ 13 :: 10 :: post))).drop 1)
          = natDecimal d.length ++ 13 :: 10 :: (d ++ 13 :: 10 :: post)
          from rfl]
      exact List.take_left _ _
    rw [hsl, parseI64_natDecimal d.length hdlen]
    dsimp only
    rw [if_neg (by omega)]
    simp only [Int.toNat_natCast]
    have hidx1 : frame[offset + ((natDecimal d.length).length + 1) + 2
        + d.length]? = some 13 := by
      rw [show offset + ((natDecimal d.length).length + 1) + 2 + d.length
          = offset + ((natDecimal d.length).length + 3 + d.length) from by omega]
      rw [← List.getElem?_drop, hdrop]
      rw [show (36 :: (natDecimal d.length ++ 13 :: 10 ::
            (d ++ 13 :: 10 :: post)))
          = (36 :: (natDecimal d.length ++ 13 :: 10 :: d)) ++ 13 :: 10 :: post
          from by simp]
      rw [show (natDecimal d.length).length + 3 + d.length
          = (36 :: (natDecimal d.length ++ 13 :: 10 :: d)).length from by
        simp only [List.length_cons, List.length_append, List.length_nil]
        try omega]
      exact getElem?_append_head _ _ _
    have hidx2 : frame[offset + ((natDecimal d.length).length + 1) + 2
        + d.length + 1]? = some 10 := by
      rw [show offset + ((natDecimal d.length).length + 1) + 2 + d.length + 1
          = offset + ((natDecimal d.length).length + 3 + d.length + 1)
          from by omega]
      rw [← List.getElem?_drop, hdrop]
      rw [show (36 :: (natDecimal d.length ++ 13 :: 10 ::
            (d ++ 13 :: 10 :: post)))
          = (36 :: (natDecimal d.length ++ 13 :: 10 :: d)) ++ 13 :: 10 :: post
          from by simp]
      rw [show (natDecimal d.length).length + 3 + d.length + 1
          = (36 :: (natDecimal d.length ++ 13 :: 10 :: d)).length + 1 from by
        simp only [List.length_cons, List.length_append, List.length_nil]
        try omega]
      exact getElem?_append_second _ _ _ _
    rw [hidx1]
    dsimp only
    rw [if_neg (by decide)]
    rw [hidx2]
    dsimp only
    rw [if_neg (by decide)]
    rw [listSlice_eq_some frame (offset + ((natDecimal d.length).length + 1) + 2)
      (offset + ((natDecimal d.length).length + 1) + 2 + d.length)
      (by omega)
      (by have := hns.2
          rw [hsv2] at this
          omega)]
    dsimp only
    have hdta : (frame.drop (offset + ((natDecimal d.length).length + 1) + 2)).take
        (offset + ((natDecimal d.length).length + 1) + 2 + d.length
          - (offset + ((natDecimal d.length).length + 1) + 2)) = d := by
      rw [show offset + ((natDecimal d.length).length + 1) + 2 + d.length
          - (offset + ((natDecimal d.length).length + 1) + 2) = d.length
          from by omega]
      have hdd : frame.drop (offset + ((natDecimal d.length).length + 1) + 2)
          = (frame.drop offset).drop ((natDecimal d.length).length + 3) := by
        rw [List.drop_drop]
        congr 1
        try omega
      rw [hdd, hdrop]
      rw [show (36 :: (natDecimal d.length ++ 13 :: 10 ::
            (d ++ 13 :: 10 :: post)))
          = (36 :: (natDecimal d.length ++ [13, 10])) ++ (d ++ 13 :: 10 :: post)
          from by simp]
      rw [show (natDecimal d.length).length + 3
          = (36 :: (natDecimal d.length ++ [13, 10])).length from by
        simp only [List.length_cons, List.length_append, List.length_nil]
        try omega]
      rw [List.drop_left]
      exact List.take_left _ _
    rw [hdta]
    exact congrArg Except.ok (congrArg (Prod.mk _)
      (by rw [hsv2]
          omega))
  · -- array none
    intro hwf frame offset post hdrop
    rw [serializeRV] at hdrop ⊢
    have hns := drop_eq_append_length frame offset _ post hdrop (by simp)
    rw [show ([42, 45, 49, 13, 10] : List Nat) ++ post
        = 42 :: 45 :: 49 :: 13 :: 10 :: post from by simp] at hdrop
    rw [parseValueFrom_dispatch frame offset 42 (45 :: 49 :: 13 :: 10 :: post)
      (by omega) hdrop]
    rw [if_neg (by decide), if_neg (by decide), if_neg (by decide),
      if_neg (by decide), if_pos rfl]
    have hfind : findCrlf (frame.drop offset) = some 3 := by
      rw [hdrop]
      have := findCrlf_no13 [42, 45, 49] (by decide) post
      simpa using this
    rw [hfind]
    dsimp only
    have hparse : parseI64 (((frame.drop offset).drop 1).take (3 - 1))
        = .ok (-1) := by
      rw [hdrop]
      rw [show (((42 :: 45 :: 49 :: 13 :: 10 :: post).drop 1).take (3 - 1))
          = [45, 49] from by simp]
      rfl
    rw [hparse]
    dsimp only
    rw [if_pos (by decide)]
    rfl
  · -- array some
    intro items ih hwf frame offset post hdrop
    rw [wellFormedRV, Bool.and_eq_true] at hwf
    have hil : ((items.length : Int)) ≤ i64Max := of_decide_eq_true hwf.1
    rw [serializeRV] at hdrop ⊢
    have hns := drop_eq_append_length frame offset _ post hdrop (by simp)
    rw [show (42 :: (natDecimal items.length ++ [13, 10]
          ++ serializeList items)) ++ post
        = 42 :: (natDecimal items.length ++ 13 :: 10 ::
            (serializeList items ++ post))
        from by simp] at hdrop
    rw [parseValueFrom_dispatch frame offset 42
      (natDecimal items.length ++ 13 :: 10 :: (serializeList items ++ post))
      (by omega) hdrop]
    rw [if_neg (by decide), if_neg (by decide), if_neg (by decide),
      if_neg (by decide), if_pos rfl]
    have hfind : findCrlf (frame.drop offset)
        = some ((natDecimal items.length).length + 1) := by
      rw [hdrop]
      have := findCrlf_no13 (42 :: natDecimal items.length)
        (by intro b hb
            rcases List.mem_cons.mp hb with rfl | hb
            · omega
            · exact natDecimal_ne13 _ b hb) (serializeList items ++ post)
      simpa using this
    rw [hfind]
    dsimp only
    have hsl : ((frame.drop offset).drop 1).take
        ((natDecimal items.length).length + 1 - 1) = natDecimal items.length := by
      rw [hdrop, Nat.add_sub_cancel]
      rw [show ((42 :: (natDecimal items.length ++ 13 :: 10 ::
            (serializeList items ++ post))).drop 1)
          = natDecimal items.length ++ 13 :: 10 :: (serializeList items ++ post)
          from rfl]
      exact List.take_left _ _
    rw [hsl, parseI64_natDecimal items.length hil]
    dsimp only
    rw [if_neg (by omega)]
    simp only [Int.toNat_natCast]
    have hdrop2 : frame.drop (offset + ((natDecimal items.length).length + 1) + 2)
        = serializeList items ++ post := by
      have hdd : frame.drop (offset + ((natDecimal items.length).length + 1) + 2)
          = (frame.drop offset).drop ((natDecimal items.length).length + 3) := by
        rw [List.drop_drop]
        congr 1
        try omega
      rw [hdd, hdrop]
      rw [show (42 :: (natDecimal items.length ++ 13 :: 10 ::
            (serializeList items ++ post)))
          = (42 :: (natDecimal items.length ++ [13, 10]))
            ++ (serializeList items ++ post)
          from by simp]
      rw [show (natDecimal items.length).length + 3
          = (42 :: (natDecimal items.length ++ [13, 10])).length from by
        simp only [List.length_cons, List.length_append, List.length_nil]
        try omega]
      exact List.drop_left _ _
    rw [ih hwf.2 frame (offset + ((natDecimal items.length).length + 1) + 2)
      post hdrop2]
    dsimp only
    exact congrArg Except.ok (congrArg (Prod.mk _)
      (by simp only [List.length_cons, List.length_append, List.length_nil]
          try omega))
  · -- list nil
    intro hwfl frame offset post hdrop
    rw [show (([] : List ResponseValue)).length = 0 from rfl,
      parseElemsFrom_zero, serializeList]
    rfl
  · -- list cons
    intro v vs ih1 ih2 hwfl frame offset post hdrop
    rw [wellFormedList, Bool.and_eq_true] at hwfl
    rw [serializeList] at hdrop ⊢
    rw [List.length_cons, parseElemsFrom_unfold_succ]
    have hA : frame.drop offset = serializeRV v ++ (serializeList vs ++ post) := by
      rw [hdrop, List.append_assoc]
    rw [ih1 hwfl.1 frame offset (serializeList vs ++ post) hA]
    dsimp only
    have hdrop2 : frame.drop (offset + (serializeRV v).length)
        = serializeList vs ++ post := by
      have h1 : (frame.drop offset).drop (serializeRV v).length
          = frame.drop (offset + (serializeRV v).length) := by
        rw [List.drop_drop]
      rw [← h1, hA, List.drop_left]
    rw [ih2 hwfl.2 frame (offset + (serializeRV v).length) post hdrop2]
    dsimp only
    exact congrArg Except.ok (congrArg (Prod.mk _)
      (by simp only [List.length_append]))

/-- C1: round-trip of the RESP wire format.  For every RESP value v of the
data model (simple-string and error payloads free of CR and LF, integers
and container lengths fitting in an i64), serializing v and then parsing
the resulting bytes (with any trailing bytes present) yields v again and
consumes exactly the serialized bytes from the buffer head. -/
theorem c1_roundtrip (v : ResponseValue) (rest : List Nat)
    (hwf : wellFormedRV v = true) :
    parse (serializeRV v ++ rest) = (.ok v, rest) := by
  have hpk := peekBytesNeeded_serialize v hwf rest
  rw [parse, hpk]
  dsimp only
  rw [if_neg (by simp only [List.length_append]; omega)]
  rw [List.take_left]
  rw [parseFrame]
  have hrt := parseValueFrom_serialize v hwf (serializeRV v) 0 [] (by simp)
  rw [hrt]
  dsimp only
  rw [List.drop_left]

/-- Witness for the round-trip: a nested concrete value (array holding a
simple string, a negative integer, a binary bulk string with CR, LF and a
zero byte, a null bulk string, and an empty inner array), serialized and
parsed back in front of one trailing byte. -/
theorem c1_roundtrip_witness :
    wellFormedRV (ResponseValue.array (some
      [ResponseValue.simpleString [79, 75],
       ResponseValue.integer (-12),
       ResponseValue.bulkString (some [13, 10, 0]),
       ResponseValue.bulkString none,
       ResponseValue.array (some [])])) = true
    ∧ parse (serializeRV (ResponseValue.array (some
        [ResponseValue.simpleString [79, 75],
         ResponseValue.integer (-12),
         ResponseValue.bulkString (some [13, 10, 0]),
         ResponseValue.bulkString none,
         ResponseValue.array (some [])])) ++ [43])
      = (.ok (ResponseValue.array (some
          [ResponseValue.simpleString [79, 75],
           ResponseValue.integer (-12),
           ResponseValue.bulkString (some [13, 10, 0]),
           ResponseValue.bulkString none,
           ResponseValue.array (some [])])), [43]) :=
  ⟨by decide, c1_roundtrip _ [43] (by decide)⟩

theorem peekElems_succ_ok_inv (c : Nat) (data : List Nat) (off total : Nat)
    (h : peekElems (c + 1) data off = .ok total) :
    ∃ size, peekBytesNeeded (data.drop off) = .ok size
      ∧ peekElems c data (off + size) = .ok total ∧ off < data.length := by
  rw [peekElems_unfold_succ] at h
  by_cases hg : data.length ≤ off
  · rw [if_pos hg] at h
    exact absurd h (by simp)
  · rw [if_neg hg] at h
    rcases hpk : peekBytesNeeded (data.drop off) with e | size
    · rw [hpk] at h
      exact absurd h (by simp)
    · rw [hpk] at h
      dsimp only at h
      exact ⟨size, rfl, h, by omega⟩

/-- Agreement of the commit-phase re-parse with the read-only peek pass:
at any offset for which the peek pass promises a frame of m bytes fitting
inside the detached frame, the commit parse never takes the
out-of-bounds (panic) path, and whenever it succeeds it consumes exactly
the m bytes the peek pass promised.  Mutually, the array element loop
never panics and consumes exactly what its peek loop measured. -/
theorem parseValueFrom_agrees_peek (frame : List Nat) :
    ∀ (offset m : Nat), peekBytesNeeded (frame.drop offset) = .ok m →
      offset + m ≤ frame.length →
      parseValueFrom frame offset ≠ .error .indexOutOfBounds
      ∧ ∀ v c, parseValueFrom frame offset = .ok (v, c) → c = m := by
  refine Rustis.parseValueFrom.induct frame
    (fun offset => ∀ m, peekBytesNeeded (frame.drop offset) = .ok m →
      offset + m ≤ frame.length →
      parseValueFrom frame offset ≠ .error .indexOutOfBounds
      ∧ ∀ v c, parseValueFrom frame offset = .ok (v, c) → c = m)
    (fun offset count => ∀ offsetA relOff total, offset = offsetA + relOff →
      peekElems count (frame.drop offsetA) relOff = .ok total →
      offsetA + total ≤ frame.length →
      parseElemsFrom frame offset count ≠ .error .indexOutOfBounds
      ∧ ∀ vs c, parseElemsFrom frame offset count = .ok (vs, c) →
          relOff + c = total)
    ?_ ?_ ?_ ?_ ?_ ?_ ?_ ?_ ?_ ?_ ?_ ?_ ?_ ?_ ?_ ?_ ?_
  · intro offset hlt m hpk hlen
    rw [List.drop_eq_nil_of_le (by omega)] at hpk
    rw [peekBytesNeeded] at hpk
    exact absurd hpk (by simp)
  · intro offset hno hd m hpk hlen
    rw [hd, peekBytesNeeded] at hpk
    exact absurd hpk (by simp)
  · intro offset hno tail hd m hpk hlen
    rw [hd] at hpk
    obtain ⟨he, hfind, hm⟩ :=
      peekBytesNeeded_line_ok 43 tail m (Or.inl rfl) hpk
    have hfindf : findCrlf (frame.drop offset) = some he := by
      rw [hd]; exact hfind
    have hhe : 1 ≤ he := findCrlf_pos 43 tail he hfind (by decide)
    have hss := parseSimpleStringFrame_spec frame offset he hfindf hhe
      (by omega)
    have hdisp := parseValueFrom_dispatch frame offset 43 tail hno hd
    rw [if_pos rfl] at hdisp
    rw [hdisp, hss]
    refine ⟨by simp, ?_⟩
    intro v c h
    injection h with h2
    injection h2 with _ h3
    omega
  · intro offset hno tail hd hne m hpk hlen
    rw [hd] at hpk
    obtain ⟨he, hfind, hm⟩ :=
      peekBytesNeeded_line_ok 45 tail m (Or.inr (Or.inl rfl)) hpk
    have hfindf : findCrlf (frame.drop offset) = some he := by
      rw [hd]; exact hfind
    have hhe : 1 ≤ he := findCrlf_pos 45 tail he hfind (by decide)
    have hss := parseSimpleErrorFrame_spec frame offset he hfindf hhe
      (by omega)
    have hdisp := parseValueFrom_dispatch frame offset 45 tail hno hd
    rw [if_neg (by decide), if_pos rfl] at hdisp
    rw [hdisp, hss]
    refine ⟨by simp, ?_⟩
    intro v c h
    injection h with h2
    injection h2 with _ h3
    omega
  · intro offset hno tail hd hne1 hne2 m hpk hlen
    rw [hd] at hpk
    obtain ⟨he, hfind, hm⟩ :=
      peekBytesNeeded_line_ok 58 tail m (Or.inr (Or.inr rfl)) hpk
    have hfindf : findCrlf (frame.drop offset) = some he := by
      rw [hd]; exact hfind
    have hhe : 1 ≤ he := findCrlf_pos 58 tail he hfind (by decide)
    have hdisp := parseValueFrom_dispatch frame offset 58 tail hno hd
    rw [if_neg (by decide), if_neg (by decide), if_pos rfl] at hdisp
    rcases parseIntegerFrame_spec frame offset he hfindf hhe with
      ⟨v, hv⟩ | ⟨e, he2, hne⟩
    · rw [hdisp, hv]
      refine ⟨by simp, ?_⟩
      intro v2 c h
      injection h with h2
      injection h2 with _ h3
      omega
    · rw [hdisp, he2]
      refine ⟨?_, ?_⟩
      · intro hc
        injection hc with hc2
        exact hne hc2
      · intro v2 c h
        exact absurd h (by simp)
  · intro offset hno tail hd hne1 hne2 hne3 m hpk hlen
    rw [hd, peekBytesNeeded_bulk_eq] at hpk
    obtain ⟨he, L, hfind, hparse, hcase⟩ := peekBulkStringSize_ok _ m hpk
    have hfindf : findCrlf (frame.drop offset) = some he := by
      rw [hd]; exact hfind
    have hparsef : parseI64 (((frame.drop offset).drop 1).take (he - 1))
        = .ok L := by
      rw [hd]; exact hparse
    have hhe : 1 ≤ he := findCrlf_pos 36 tail he hfind (by decide)
    have hdisp := parseValueFrom_dispatch frame offset 36 tail hno hd
    rw [if_neg (by decide), if_neg (by decide), if_neg (by decide),
      if_pos rfl] at hdisp
    rcases hcase with ⟨hL, hm⟩ | ⟨hL, hm⟩
    · have hbs := parseBulkStringFrame_neg_spec frame offset he L hfindf hhe
        hparsef hL
      rw [hdisp, hbs]
      refine ⟨by simp, ?_⟩
      intro v c h
      injection h with h2
      injection h2 with _ h3
      omega
    · subst hm
      rcases parseBulkStringFrame_pos_spec frame offset he L hfindf hhe
        hparsef (by omega) (by omega) with ⟨v, hv⟩ | ⟨e, he2, hne⟩
      · rw [hdisp, hv]
        refine ⟨by simp, ?_⟩
        intro v2 c h
        injection h with h2
        injection h2 with _ h3
        omega
      · rw [hdisp, he2]
        refine ⟨?_, ?_⟩
        · intro hc
          injection hc with hc2
          exact hne hc2
        · intro v2 c h
          exact absurd h (by simp)
  · intro offset hno tail hfind hd hne1 hne2 hne3 hne4 m hpk hlen
    rw [hd] at hpk
    obtain ⟨he, L, hfind2, _, _⟩ := peekBytesNeeded_array_ok tail m hpk
    rw [hd] at hfind
    rw [hfind] at hfind2
    exact absurd hfind2 (by simp)
  · intro offset hno tail he hfind e hparse hd hne1 hne2 hne3 hne4 m hpk hlen
    rw [hd] at hpk
    obtain ⟨he2, L, hfind2, hparse2, _⟩ := peekBytesNeeded_array_ok tail m hpk
    rw [hd] at hfind
    rw [hfind] at hfind2
    injection hfind2 with hee
    subst hee
    rw [hd] at hparse
    rw [hparse] at hparse2
    exact absurd hparse2 (by simp)
  · intro offset hno tail he hfind L hparse hL hd hne1 hne2 hne3 hne4 m hpk
      hlen
    rw [hd] at hpk
    obtain ⟨he2, L2, hfind2, hparse2, hcase⟩ :=
      peekBytesNeeded_array_ok tail m hpk
    have hfd : findCrlf (frame.drop offset) = some he2 := by
      rw [hd]; exact hfind2
    rw [hfind] at hfd
    injection hfd with hee
    subst hee
    have hpd : parseI64 (((frame.drop offset).drop 1).take (he - 1))
        = .ok L2 := by
      rw [hd]; exact hparse2
    rw [hparse] at hpd
    injection hpd with hLL
    subst hLL
    rcases hcase with ⟨_, hm⟩ | ⟨hL2, _⟩
    · have hdisp := parseValueFrom_dispatch frame offset 42 tail hno hd
      rw [if_neg (by decide), if_neg (by decide), if_neg (by decide),
        if_neg (by decide), if_pos rfl, hfind] at hdisp
      dsimp only at hdisp
      rw [hparse] at hdisp
      dsimp only at hdisp
      rw [if_pos hL] at hdisp
      rw [hdisp]
      refine ⟨by simp, ?_⟩
      intro v c h
      injection h with h2
      injection h2 with _ h3
      omega
    · omega
  · intro offset hno tail he hfind L hparse hL e helems hd hne1 hne2 hne3
      hne4 ih m hpk hlen
    rw [hd] at hpk
    obtain ⟨he2, L2, hfind2, hparse2, hcase⟩ :=
      peekBytesNeeded_array_ok tail m hpk
    have hfd : findCrlf (frame.drop offset) = some he2 := by
      rw [hd]; exact hfind2
    rw [hfind] at hfd
    injection hfd with hee
    subst hee
    have hpd : parseI64 (((frame.drop offset).drop 1).take (he - 1))
        = .ok L2 := by
      rw [hd]; exact hparse2
    rw [hparse] at hpd
    injection hpd with hLL
    subst hLL
    rcases hcase with ⟨hL2, _⟩ | ⟨hL2, hpe⟩
    · omega
    · have hpef : peekElems L.toNat (frame.drop offset) (he + 2)
          = .ok m := by
        rw [hd]; exact hpe
      have hIH := ih offset (he + 2) m (by omega) hpef (by omega)
      have hdisp := parseValueFrom_dispatch frame offset 42 tail hno hd
      rw [if_neg (by decide), if_neg (by decide), if_neg (by decide),
        if_neg (by decide), if_pos rfl, hfind] at hdisp
      dsimp only at hdisp
      rw [hparse] at hdisp
      dsimp only at hdisp
      rw [if_neg hL] at hdisp
      rw [helems] at hdisp
      dsimp only at hdisp
      rw [hdisp]
      refine ⟨?_, ?_⟩
      · intro hc
        injection hc with hc2
        subst hc2
        exact hIH.1 helems
      · intro v c h
        exact absurd h (by simp)
  · intro offset hno tail he hfind L hparse hL items consumed helems hd hne1
      hne2 hne3 hne4 ih m hpk hlen
    rw [hd] at hpk
    obtain ⟨he2, L2, hfind2, hparse2, hcase⟩ :=
      peekBytesNeeded_array_ok tail m hpk
    have hfd : findCrlf (frame.drop offset) = some he2 := by
      rw [hd]; exact hfind2
    rw [hfind] at hfd
    injection hfd with hee
    subst hee
    have hpd : parseI64 (((frame.drop offset).drop 1).take (he - 1))
        = .ok L2 := by
      rw [hd]; exact hparse2
    rw [hparse] at hpd
    injection hpd with hLL
    subst hLL
    rcases hcase with ⟨hL2, _⟩ | ⟨hL2, hpe⟩
    · omega
    · have hpef : peekElems L.toNat (frame.drop offset) (he + 2)
          = .ok m := by
        rw [hd]; exact hpe
      have hIH := ih offset (he + 2) m (by omega) hpef (by omega)
      have hcons := hIH.2 items consumed helems
      have hdisp := parseValueFrom_dispatch frame offset 42 tail hno hd
      rw [if_neg (by decide), if_neg (by decide), if_neg (by decide),
        if_neg (by decide), if_pos rfl, hfind] at hdisp
      dsimp only at hdisp
      rw [hparse] at hdisp
      dsimp only at hdisp
      rw [if_neg hL] at hdisp
      rw [helems] at hdisp
      dsimp only at hdisp
      rw [hdisp]
      refine ⟨by simp, ?_⟩
      intro v c h
      injection h with h2
      injection h2 with _ h3
      omega
  · intro offset hno b tail hd hne1 hne2 hne3 hne4 hne5 halpha m hpk hlen
    rw [hd] at hpk
    obtain ⟨he, hfind, hm⟩ := peekBytesNeeded_inline_ok b tail m
      (by push_neg; exact ⟨hne1, hne2, hne3⟩) hne4 hne5 halpha hpk
    have hfindf : findCrlf (frame.drop offset) = some he := by
      rw [hd]; exact hfind
    have hdisp := parseValueFrom_dispatch frame offset b tail hno hd
    rw [if_neg hne1, if_neg hne2, if_neg hne3, if_neg hne4, if_neg hne5,
      if_pos halpha] at hdisp
    have hil := parseInlineFrame_spec frame offset he hfindf
    rw [hdisp, hil]
    refine ⟨by simp, ?_⟩
    intro v c h
    injection h with h2
    injection h2 with _ h3
    omega
  · intro offset hno b tail hd hne1 hne2 hne3 hne4 hne5 halpha m hpk hlen
    rw [hd] at hpk
    rw [peekBytesNeeded_invalid b tail
      (by push_neg; exact ⟨hne1, hne2, hne3⟩) hne4 hne5 halpha] at hpk
    exact absurd hpk (by simp)
  · intro offset offsetA relOff total heq hpe hlen
    rw [peekElems] at hpe
    injection hpe with ht
    rw [parseElemsFrom_zero]
    refine ⟨by simp, ?_⟩
    intro vs c h
    injection h with h2
    injection h2 with _ h3
    omega
  · intro offset c e hval ih1 offsetA relOff total heq hpe hlen
    obtain ⟨size, hpk2, hpecont, hoff⟩ := peekElems_succ_ok_inv c _ _ _ hpe
    have hdd : (frame.drop offsetA).drop relOff = frame.drop offset := by
      rw [List.drop_drop]
      congr 1
      omega
    rw [hdd] at hpk2
    have hle1 := peekElems_le _ _ _ _ hpecont
    have hIH1 := ih1 size hpk2 (by omega)
    rw [parseElemsFrom_unfold_succ, hval]
    refine ⟨?_, ?_⟩
    · intro hc
      injection hc with hc2
      subst hc2
      exact hIH1.1 hval
    · intro vs c2 h
      exact absurd h (by simp)
  · intro offset c v consumed hval e helems2 ih1 ih2 offsetA relOff total
      heq hpe hlen
    obtain ⟨size, hpk2, hpecont, hoff⟩ := peekElems_succ_ok_inv c _ _ _ hpe
    have hdd : (frame.drop offsetA).drop relOff = frame.drop offset := by
      rw [List.drop_drop]
      congr 1
      omega
    rw [hdd] at hpk2
    have hle1 := peekElems_le _ _ _ _ hpecont
    have hIH1 := ih1 size hpk2 (by omega)
    have hsz := hIH1.2 v consumed hval
    subst hsz
    have hIH2 := ih2 offsetA (relOff + consumed) total (by omega) hpecont
      hlen
    rw [parseElemsFrom_unfold_succ, hval]
    dsimp only
    rw [helems2]
    refine ⟨?_, ?_⟩
    · intro hc
      injection hc with hc2
      subst hc2
      exact hIH2.1 helems2
    · intro vs c2 h
      exact absurd h (by simp)
  · intro offset c v consumed hval items consumed2 helems2 ih1 ih2 offsetA
      relOff total heq hpe hlen
    obtain ⟨size, hpk2, hpecont, hoff⟩ := peekElems_succ_ok_inv c _ _ _ hpe
    have hdd : (frame.drop offsetA).drop relOff = frame.drop offset := by
      rw [List.drop_drop]
      congr 1
      omega
    rw [hdd] at hpk2
    have hle1 := peekElems_le _ _ _ _ hpecont
    have hIH1 := ih1 size hpk2 (by omega)
    have hsz := hIH1.2 v consumed hval
    subst hsz
    have hIH2 := ih2 offsetA (relOff + consumed) total (by omega) hpecont
      hlen
    have hcons2 := hIH2.2 items consumed2 helems2
    rw [parseElemsFrom_unfold_succ, hval]
    dsimp only
    rw [helems2]
    refine ⟨by simp, ?_⟩
    intro vs c2 h
    injection h with h2
    injection h2 with _ h3
    omega

/-- The read-only peek pass never reports the modelled panic value: its
errors are Incomplete, InvalidFirstByte or the conversion errors. -/
theorem peekBytesNeeded_error_ne_oob :
    ∀ (data : List Nat) (e : BufParseError),
      peekBytesNeeded data = .error e → e ≠ .indexOutOfBounds := by
  refine Rustis.peekBytesNeeded.induct
    (fun data => ∀ e, peekBytesNeeded data = .error e →
      e ≠ .indexOutOfBounds)
    (fun count data offset => ∀ e, peekElems count data offset = .error e →
      e ≠ .indexOutOfBounds)
    ?_ ?_ ?_ ?_ ?_ ?_ ?_ ?_ ?_ ?_ ?_ ?_ ?_ ?_ ?_
  · intro e h
    rw [peekBytesNeeded] at h
    injection h with h2
    rw [← h2]
    simp
  · intro b rest hb hfind e h
    rw [peekBytesNeeded, if_pos hb, hfind] at h
    injection h with h2
    rw [← h2]
    simp
  · intro b rest hb he hfind e h
    rw [peekBytesNeeded, if_pos hb, hfind] at h
    exact absurd h (by simp)
  · intro rest hb e h
    rw [peekBytesNeeded_bulk_eq, peekBulkStringSize] at h
    rcases hfind : findCrlf (36 :: rest) with _ | he
    · rw [hfind] at h
      injection h with h2
      rw [← h2]
      simp
    · rw [hfind] at h
      dsimp only at h
      rcases hparse : parseI64 (((36 :: rest).drop 1).take (he - 1))
        with e2 | L
      · rw [hparse] at h
        injection h with h2
        rw [← h2]
        exact parseI64_error_ne_oob _ _ hparse
      · rw [hparse] at h
        dsimp only at h
        by_cases hL : L < 0
        · rw [if_pos hL] at h
          exact absurd h (by simp)
        · rw [if_neg hL] at h
          exact absurd h (by simp)
  · intro rest h1 h2 hfind e h
    rw [peekBytesNeeded, if_neg h1, if_neg h2, if_pos rfl, hfind] at h
    injection h with h2
    rw [← h2]
    simp
  · intro rest he e2 h1 h2 hfind hparse e h
    rw [peekBytesNeeded, if_neg h1, if_neg h2, if_pos rfl, hfind] at h
    dsimp only at h
    rw [hparse] at h
    injection h with h2
    rw [← h2]
    exact parseI64_error_ne_oob _ _ hparse
  · intro rest he L hL h1 h2 hfind hparse e h
    rw [peekBytesNeeded, if_neg h1, if_neg h2, if_pos rfl, hfind] at h
    dsimp only at h
    rw [hparse] at h
    dsimp only at h
    rw [if_pos hL] at h
    exact absurd h (by simp)
  · intro rest he L hL h1 h2 hfind hparse ih e h
    rw [peekBytesNeeded, if_neg h1, if_neg h2, if_pos rfl, hfind] at h
    dsimp only at h
    rw [hparse] at h
    dsimp only at h
    rw [if_neg hL] at h
    exact ih e h
  · intro b rest h1 h2 h3 h4 hfind e h
    rw [peekBytesNeeded, if_neg h1, if_neg h2, if_neg h3, if_pos h4,
      hfind] at h
    injection h with h2
    rw [← h2]
    simp
  · intro b rest h1 h2 h3 h4 he hfind e h
    rw [peekBytesNeeded, if_neg h1, if_neg h2, if_neg h3, if_pos h4,
      hfind] at h
    exact absurd h (by simp)
  · intro b rest h1 h2 h3 h4 e h
    rw [peekBytesNeeded_invalid b rest h1 h2 h3 h4] at h
    injection h with h2
    rw [← h2]
    simp
  · intro data offset e h
    rw [peekElems] at h
    exact absurd h (by simp)
  · intro data offset c hg e h
    rw [peekElems_unfold_succ, if_pos hg] at h
    injection h with h2
    rw [← h2]
    simp
  · intro data offset c hg e2 hpk ih e h
    rw [peekElems_unfold_succ, if_neg hg, hpk] at h
    injection h with h2
    rw [← h2]
    exact ih e2 hpk
  · intro data offset c hg size hpk ih1 ih2 e h
    rw [peekElems_unfold_succ, if_neg hg, hpk] at h
    dsimp only at h
    exact ih2 e h

/-- C10: parser commit-phase totality.  Whenever the peek pass returns a
byte count n and the buffer holds at least n bytes, the commit-phase
re-parse of the detached n-byte frame performs no out-of-bounds access
(modelled as the indexOutOfBounds outcome): the trailing-CRLF checks and
all slice bounds, including inside nested array elements, stay within the
frame.  Consequently parse never panics on any input buffer. -/
theorem c10_commit_no_panic (buffer : List Nat) :
    (∀ n, peekBytesNeeded buffer = .ok n → n ≤ buffer.length →
      parseFrame (buffer.take n) ≠ .error .indexOutOfBounds)
    ∧ (parse buffer).1 ≠ .error .indexOutOfBounds := by
  have hmain : ∀ n, peekBytesNeeded buffer = .ok n → n ≤ buffer.length →
      parseFrame (buffer.take n) ≠ .error .indexOutOfBounds := by
    intro n hpeek hlen
    have hstable := peekBytesNeeded_take_stable buffer n n hpeek
      (Nat.le_refl n) hlen
    have hag := parseValueFrom_agrees_peek (buffer.take n) 0 n
      (by rw [List.drop_zero]; exact hstable)
      (by rw [List.length_take]; omega)
    rw [parseFrame]
    rcases hv : parseValueFrom (buffer.take n) 0 with e | ⟨v, c⟩
    · intro hc
      injection hc with hc2
      subst hc2
      exact hag.1 hv
    · simp
  refine ⟨hmain, ?_⟩
  rw [parse]
  rcases hpeek : peekBytesNeeded buffer with e | n
  · dsimp only
    intro hc
    injection hc with hc2
    exact peekBytesNeeded_error_ne_oob buffer e hpeek hc2
  · dsimp only
    by_cases hlen : buffer.length < n
    · rw [if_pos hlen]
      simp
    · rw [if_neg hlen]
      rcases hf : parseFrame (buffer.take n) with e | v
      · dsimp only
        intro hc
        injection hc with hc2
        subst hc2
        exact hmain n hpeek (by omega) hf
      · simp

/-- C10 witness: the no-panic theorem applied at a concrete complete
frame. -/
theorem c10_commit_no_panic_witness :
    peekBytesNeeded [43, 79, 75, 13, 10] = .ok 5
    ∧ (5 : Nat) ≤ ([43, 79, 75, 13, 10] : List Nat).length
    ∧ parseFrame (([43, 79, 75, 13, 10] : List Nat).take 5)
        ≠ .error .indexOutOfBounds :=
  ⟨by simp [peekBytesNeeded, findCrlf], by decide,
   (c10_commit_no_panic [43, 79, 75, 13, 10]).1 5
     (by simp [peekBytesNeeded, findCrlf]) (by decide)⟩

/-- C2 counterexample: on the buffer holding the integer frame with the
non-numeric payload a followed by the byte X, parse returns the
StringConversionError detected by the commit re-parse, yet the four frame
bytes have already been split off: the buffer is left holding only X, so
an error return does mutate the buffer. -/
theorem c2_error_mutates_counterexample :
    (parse [58, 97, 13, 10, 88]).1 = .error .StringConversionError
    ∧ (parse [58, 97, 13, 10, 88]).2 = [88]
    ∧ ([88] : List Nat) ≠ [58, 97, 13, 10, 88] := by
  have hpeek : peekBytesNeeded [58, 97, 13, 10, 88] = .ok 4 := by
    simp [peekBytesNeeded, findCrlf]
  have hI : parseIntegerFrame [58, 97, 13, 10] 0
      = .error .StringConversionError := rfl
  have hv : parseValueFrom [58, 97, 13, 10] 0
      = .error .StringConversionError := by
    rw [parseValueFrom_dispatch [58, 97, 13, 10] 0 58 [97, 13, 10]
      (by omega) rfl]
    rw [if_neg (by decide), if_neg (by decide), if_pos rfl]
    exact hI
  have hf : parseFrame (([58, 97, 13, 10, 88] : List Nat).take 4)
      = .error .StringConversionError := by
    rw [show (([58, 97, 13, 10, 88] : List Nat).take 4)
      = [58, 97, 13, 10] from rfl]
    rw [parseFrame, hv]
  rw [parse, hpeek]
  dsimp only
  rw [if_neg (by decide), hf]
  exact ⟨rfl, rfl, by decide⟩

/-- C2 amended: parse leaves the buffer unchanged exactly when the
read-only peek pass fails (Incomplete, InvalidFirstByte, or a malformed
length header detected during peek) or the buffer is shorter than the
peeked frame; once the peek pass succeeds and the buffer holds the whole
frame, exactly those frame bytes are removed from the head whether the
commit re-parse succeeds or fails, so a commit-phase error (bad trailing
terminator, non-numeric integer payload) does mutate the buffer.  In
particular, on success exactly the consumed frame's bytes are removed. -/
theorem c2_parse_buffer_discipline (buffer : List Nat) :
    (∀ e, peekBytesNeeded buffer = .error e → parse buffer = (.error e, buffer))
    ∧ (∀ n, peekBytesNeeded buffer = .ok n → buffer.length < n →
        parse buffer = (.error .Incomplete, buffer))
    ∧ (∀ n, peekBytesNeeded buffer = .ok n → n ≤ buffer.length →
        (parse buffer).2 = buffer.drop n)
    ∧ (∀ v, (parse buffer).1 = .ok v →
        ∃ n, peekBytesNeeded buffer = .ok n ∧ n ≤ buffer.length
          ∧ (parse buffer).2 = buffer.drop n) := by
  refine ⟨?_, ?_, ?_, ?_⟩
  · intro e h
    rw [parse, h]
  · intro n h hlt
    rw [parse, h]
    dsimp only
    rw [if_pos hlt]
  · intro n h hle
    rw [parse, h]
    dsimp only
    rw [if_neg (by omega)]
    rcases parseFrame (buffer.take n) with e | v <;> rfl
  · intro v h
    rw [parse] at h ⊢
    rcases hpeek : peekBytesNeeded buffer with e | n
    · rw [hpeek] at h
      exact absurd h (by simp)
    · rw [hpeek] at h
      dsimp only at h ⊢
      by_cases hlt : buffer.length < n
      · rw [if_pos hlt] at h
        exact absurd h (by simp)
      · rw [if_neg hlt] at h ⊢
        refine ⟨n, rfl, by omega, ?_⟩
        rcases parseFrame (buffer.take n) with e | v2 <;> rfl

/-- C2 witness: the discipline theorem applied at a concrete complete
frame. -/
theorem c2_parse_buffer_discipline_witness :
    peekBytesNeeded [43, 79, 75, 13, 10, 90] = .ok 5
    ∧ (5 : Nat) ≤ ([43, 79, 75, 13, 10, 90] : List Nat).length
    ∧ (parse [43, 79, 75, 13, 10, 90]).2
        = ([43, 79, 75, 13, 10, 90] : List Nat).drop 5 :=
  ⟨by simp [peekBytesNeeded, findCrlf], by decide,
   (c2_parse_buffer_discipline [43, 79, 75, 13, 10, 90]).2.2.1 5
     (by simp [peekBytesNeeded, findCrlf]) (by decide)⟩

/-- C9 witness: the amended invariant theorem applied at a concrete
store. -/
theorem c9_no_empty_invariant_witness :
    NoEmptyDb [([107], RedisValue.string [118])]
    ∧ (∀ k v db2, kvSet [([107], RedisValue.string [118])] k v
        = .ok ((), db2) → NoEmptyDb db2) :=
  ⟨by decide, (c9_no_empty_invariant _ (by decide)).1⟩

end Rustis
